import Mathlib

/-!
Verification of the trayle display-output core against its specification.

The Rust sources embedded here (shallowly) are:
  - src/utils/drm_scanner/crtc_mapper.rs      (SimpleCrtcMapper)
  - src/utils/drm_scanner/connector_scanner.rs (ConnectorScanner)
  - src/utils/drm_scanner.rs                   (DrmScanner::scan_connectors)
  - src/backend/tty.rs                         (frame_finish, render_surface,
                                                get_surface_dmabuf_feedback,
                                                connector_connected mode choice)
  - src/backend/tty/drm_lease.rs               (DrmLeaseHandler::lease_request)

Rust HashMaps are modeled as association lists; only lookup / value-set
semantics of the maps are relied on, which agree with HashMap semantics
on the unique-key states the code reaches.  Machine handles (connector,
crtc, encoder, plane, DRM node ids) are modeled as Nat.
-/

namespace Trayle

/-! ## Association-list primitives (model of std HashMap as used by the code) -/

/-- Model of a `HashMap<connector::Handle, crtc::Handle>` as an association list. -/
abbrev CrtcMap := List (Nat × Nat)

/-- Model of `HashMap::get`. -/
def lookupKey : CrtcMap → Nat → Option Nat
  | [], _ => none
  | (k, v) :: rest, h => if k = h then some v else lookupKey rest h

/-- Model of `HashMap::remove` (on unique-key maps, removing every entry at the key). -/
def eraseKey (m : CrtcMap) (h : Nat) : CrtcMap :=
  m.filter (fun p => p.1 ≠ h)

/-- Model of `HashMap::insert`: replace the binding in place, or append a fresh one. -/
def insertPair : CrtcMap → Nat → Nat → CrtcMap
  | [], k, v => [(k, v)]
  | (k0, v0) :: rest, k, v =>
    if k0 = k then (k, v) :: rest else (k0, v0) :: insertPair rest k v

/-! ## Data model of the DRM layer, as consumed by the scanner and mapper -/

/-- The drm `connector::State` enumeration. -/
inductive ConnState
  | Connected
  | Disconnected
  | Unknown
deriving DecidableEq, Repr

/-- One advertised display mode; only the PREFERRED flag matters to the code
under verification, the `tag` field keeps distinct modes distinguishable. -/
structure ModeInfo where
  tag : Nat
  preferred : Bool
deriving DecidableEq, Repr

/-- The fields of a drm `connector::Info` read by the code under verification. -/
structure ConnectorInfo where
  handle : Nat
  state : ConnState
  currentEncoder : Option Nat
  encoders : List Nat
  modes : List ModeInfo
deriving DecidableEq, Repr

/-- The fields of a drm `encoder::Info` read by the code under verification.
The `possibleCrtcs` bitmask is modeled as the set of crtc handles it covers. -/
structure EncoderInfo where
  crtc : Option Nat
  possibleCrtcs : List Nat
deriving DecidableEq, Repr

/-- A DRM control device, restricted to the queries the scanner and mapper
perform.  `connectors` and `crtcs` are the resource handles in device order;
`getConnector` and `getEncoder` model the (pure, per-scan) info queries,
with `none` standing for an `Err` result. -/
structure DrmDevice where
  connectors : List Nat
  crtcs : List Nat
  getConnector : Nat → Option ConnectorInfo
  getEncoder : Nat → Option EncoderInfo

/-- A device is well formed when every connector info it reports carries the
handle it was queried at (always true of the kernel interface). -/
def DrmDevice.WF (drm : DrmDevice) : Prop :=
  ∀ h i, drm.getConnector h = some i → i.handle = h

namespace SimpleCrtcMapper

/-- Embedding of `SimpleCrtcMapper::is_taken`. -/
def is_taken (m : CrtcMap) (crtc : Nat) : Bool :=
  m.any (fun v => v.2 == crtc)

/-- Embedding of `SimpleCrtcMapper::is_available`. -/
def is_available (m : CrtcMap) (crtc : Nat) : Bool :=
  ! is_taken m crtc

/-- Embedding of `SimpleCrtcMapper::restored_for_connector`: follow the
connector's current encoder to its crtc and adopt it if still available.
The Rust `?` early returns are modeled by `Option.bind`, and
`.then_some` by the final conditional. -/
def restored_for_connector (drm : DrmDevice) (m : CrtcMap) (conn : ConnectorInfo) :
    Option Nat :=
  Option.bind conn.currentEncoder fun encH =>
  Option.bind (drm.getEncoder encH) fun encoder =>
  Option.bind encoder.crtc fun crtc =>
  if is_available m crtc then some crtc else none

/-- Embedding of `ResourceHandles::filter_crtcs`: the device crtc list
restricted by the encoder's possible-crtc mask, in device order. -/
def filter_crtcs (drm : DrmDevice) (encoder : EncoderInfo) : List Nat :=
  drm.crtcs.filter (fun crtc => encoder.possibleCrtcs.contains crtc)

/-- Embedding of `SimpleCrtcMapper::next_available_for_connector`: over the
connector's encoders (skipping failed queries), the first compatible crtc
that is still available. -/
def next_available_for_connector (drm : DrmDevice) (m : CrtcMap) (conn : ConnectorInfo) :
    Option Nat :=
  (conn.encoders.filterMap drm.getEncoder).findSome?
    (fun encoder => (filter_crtcs drm encoder).find? (fun crtc => is_available m crtc))

/-- The release phase of `SimpleCrtcMapper::map`: drop the claim of every
connector whose state is not Connected. -/
def releasePass (conns : List ConnectorInfo) (m : CrtcMap) : CrtcMap :=
  conns.foldl
    (fun acc conn =>
      if conn.state = ConnState.Connected then acc else eraseKey acc conn.handle)
    m

/-- The `needs_crtc.retain` phase of `SimpleCrtcMapper::map`: in order, try to
restore each connector's previous crtc, keeping the connectors that failed. -/
def retainFold (drm : DrmDevice) : List ConnectorInfo → CrtcMap → CrtcMap × List ConnectorInfo
  | [], m => (m, [])
  | conn :: rest, m =>
    match restored_for_connector drm m conn with
    | some crtc => retainFold drm rest (insertPair m conn.handle crtc)
    | none =>
      let res := retainFold drm rest m
      (res.1, conn :: res.2)

/-- The final loop of `SimpleCrtcMapper::map`: allocate the first compatible
available crtc for each connector left over by the retain phase. -/
def allocFold (drm : DrmDevice) : List ConnectorInfo → CrtcMap → CrtcMap
  | [], m => m
  | conn :: rest, m =>
    match next_available_for_connector drm m conn with
    | some crtc => allocFold drm rest (insertPair m conn.handle crtc)
    | none => allocFold drm rest m

/-- Embedding of `SimpleCrtcMapper::map`. -/
def map (drm : DrmDevice) (conns : List ConnectorInfo) (m : CrtcMap) : CrtcMap :=
  let m1 := releasePass conns m
  let needs := conns.filter
    (fun conn => conn.state == ConnState.Connected && (lookupKey m1 conn.handle).isNone)
  let retained := retainFold drm needs m1
  allocFold drm retained.2 retained.1

/-- Embedding of `SimpleCrtcMapper::crtc_for_connector`. -/
def crtc_for_connector (m : CrtcMap) (conn : Nat) : Option Nat :=
  lookupKey m conn

end SimpleCrtcMapper

/-- A run of arbitrarily many `map` operations starting from the empty
assignment (the `SimpleCrtcMapper::default` state). -/
def runMaps (ops : List (DrmDevice × List ConnectorInfo)) : CrtcMap :=
  ops.foldl (fun m op => SimpleCrtcMapper.map op.1 op.2 m) []

/-! ## Connector Scanner (src/utils/drm_scanner/connector_scanner.rs) -/

/-- Model of the scanner's `HashMap<connector::Handle, connector::Info>`. -/
abbrev Snapshot := List (Nat × ConnectorInfo)

/-- Snapshot lookup (`HashMap::get` / the old value returned by `insert`). -/
def lookupInfo : Snapshot → Nat → Option ConnectorInfo
  | [], _ => none
  | (k, v) :: rest, h => if k = h then some v else lookupInfo rest h

/-- Snapshot insert: replace the binding in place, or append a fresh one. -/
def insertInfo : Snapshot → Nat → ConnectorInfo → Snapshot
  | [], k, v => [(k, v)]
  | (k0, v0) :: rest, k, v =>
    if k0 = k then (k, v) :: rest else (k0, v0) :: insertInfo rest k v

/-- Embedding of `ConnectorScanResult`. -/
structure ConnectorScanResult where
  connected : List ConnectorInfo
  disconnected : List ConnectorInfo
deriving DecidableEq, Repr

/-- An anomaly report: (connector handle, previous state, current state).
The scanner's match arms for the pairings that emit no event contain no
statement at all (no tracing call), so the embedded scan never produces
such a report; the channel exists so that absence is a provable fact. -/
abbrev AnomalyLog := List (Nat × ConnState × ConnState)

/-- One iteration of the loop body of `ConnectorScanner::scan`: insert the
fresh info into the snapshot and classify the state transition, mirroring
the source's match arms in order. -/
def scanStep (acc : Snapshot × ConnectorScanResult × AnomalyLog) (conn : ConnectorInfo) :
    Snapshot × ConnectorScanResult × AnomalyLog :=
  let snap := acc.1
  let res := acc.2.1
  let log := acc.2.2
  let old? := lookupInfo snap conn.handle
  let snap1 := insertInfo snap conn.handle conn
  match old? with
  | some old =>
    match old.state, conn.state with
    | ConnState.Connected, ConnState.Disconnected =>
      (snap1, { res with disconnected := res.disconnected ++ [conn] }, log)
    | ConnState.Disconnected, ConnState.Connected =>
      (snap1, { res with connected := res.connected ++ [conn] }, log)
    | ConnState.Unknown, ConnState.Connected =>
      (snap1, { res with connected := res.connected ++ [conn] }, log)
    | ConnState.Connected, ConnState.Connected => (snap1, res, log)
    | ConnState.Disconnected, ConnState.Disconnected => (snap1, res, log)
    | ConnState.Unknown, _ => (snap1, res, log)
    | _, ConnState.Unknown => (snap1, res, log)
  | none =>
    if conn.state = ConnState.Connected then
      (snap1, { res with connected := res.connected ++ [conn] }, log)
    else
      (snap1, res, log)

/-- Embedding of `ConnectorScanner::scan`: enumerate the device's connector
handles, query each (skipping failed queries), and fold the loop body. -/
def ConnectorScanner.scan (drm : DrmDevice) (snap : Snapshot) :
    Snapshot × ConnectorScanResult × AnomalyLog :=
  (drm.connectors.filterMap drm.getConnector).foldl scanStep (snap, ⟨[], []⟩, [])

/-! ## DrmScanner (src/utils/drm_scanner.rs) -/

/-- Embedding of the `DrmScanner` state: the connector snapshot plus the
crtc mapper's assignment. -/
structure DrmScannerState where
  snapshot : Snapshot
  crtcs : CrtcMap
deriving DecidableEq, Repr

/-- Embedding of `DrmScanResult`: events paired with the crtc assignment
looked up before (disconnects) or after (connects) the map pass. -/
structure DrmScanResult where
  connected : List (ConnectorInfo × Option Nat)
  disconnected : List (ConnectorInfo × Option Nat)
deriving DecidableEq, Repr

/-- Embedding of `DrmScanner::scan_connectors`: scan, annotate disconnects
with their previous crtc, run the mapper over the whole snapshot, and
annotate connects with their fresh crtc. -/
def DrmScanner.scan_connectors (drm : DrmDevice) (st : DrmScannerState) :
    DrmScannerState × DrmScanResult × AnomalyLog :=
  let scanned := ConnectorScanner.scan drm st.snapshot
  let snap1 := scanned.1
  let scanRes := scanned.2.1
  let log := scanned.2.2
  let removed := scanRes.disconnected.map
    (fun conn => (conn, SimpleCrtcMapper.crtc_for_connector st.crtcs conn.handle))
  let crtcs1 := SimpleCrtcMapper.map drm (snap1.map Prod.snd) st.crtcs
  let added := scanRes.connected.map
    (fun conn => (conn, SimpleCrtcMapper.crtc_for_connector crtcs1 conn.handle))
  (⟨snap1, crtcs1⟩, ⟨added, removed⟩, log)

/-! ## Frame scheduling decisions (src/backend/tty.rs) -/

/-- The DrmError causes that `frame_finish` and `render_surface` downcast to
and distinguish.  `Access` errors are split by whether their io source kind
is PermissionDenied, since that is the only thing the code inspects. -/
inductive DrmErrorKind
  | DeviceInactive
  | AccessPermissionDenied
  | AccessOther
  | TestFailed
  | Other
deriving DecidableEq, Repr

/-- The `SwapBuffersError` variants, with `downcast_ref::<DrmError>` modeled
as the optional cause (`none` = the downcast failed). -/
inductive SwapError
  | AlreadySwapped
  | TemporaryFailure (cause : Option DrmErrorKind)
  | ContextLost (cause : Option DrmErrorKind)
deriving DecidableEq, Repr

/-- What a frame-event handler does next.  `arm d` inserts a one-shot repaint
timer firing after `d` seconds; `stop` arms nothing; `panicProcess` models a
Rust `panic` unwinding out of the single-threaded event-loop callback,
which terminates dispatch for the entire process. -/
inductive FrameAction
  | arm (delay : ℚ)
  | stop
  | panicProcess
deriving DecidableEq, Repr

/-- Embedding of `Duration::from_secs_f64(1_000f64 / mode.refresh as f64)`:
one refresh interval in seconds, from the mode's refresh rate in mHz
(60 Hz is stored as 60000).  Computed exactly in ℚ. -/
def frame_duration (refresh : Nat) : ℚ :=
  1000 / (refresh : ℚ)

/-- Embedding of the scheduling decision of `Trayle::frame_finish`: the
`schedule_render` match over the submission result, then, when scheduling,
the repaint-delay choice (`Timer::immediate` for a cross-GPU surface,
60% of one refresh interval otherwise).  `current_mode = none` models the
early return when the output has no current mode. -/
def frame_finish_action (primary_gpu render_node : Nat) (current_mode : Option Nat)
    (submit_result : Except SwapError Unit) : FrameAction :=
  match current_mode with
  | none => FrameAction.stop
  | some refresh =>
    let schedule_render : Option Bool :=
      match submit_result with
      | Except.ok _ => some true
      | Except.error SwapError.AlreadySwapped => some true
      | Except.error (SwapError.TemporaryFailure (some DrmErrorKind.DeviceInactive)) =>
        some false
      | Except.error (SwapError.TemporaryFailure cause) =>
        some (cause = some DrmErrorKind.AccessPermissionDenied)
      | Except.error (SwapError.ContextLost _) => none
    match schedule_render with
    | none => FrameAction.panicProcess
    | some false => FrameAction.stop
    | some true =>
      let repaint_delay := frame_duration refresh * (3 / 5 : ℚ)
      if primary_gpu ≠ render_node then FrameAction.arm 0
      else FrameAction.arm repaint_delay

/-- What `render_surface` does after a frame submission attempt.
`resetAndReschedule` is the TestFailed path (full drm state reset, then
reschedule); `panicProcess` models the `panic` on any other context loss. -/
inductive RenderAction
  | reschedule
  | complete
  | resetAndReschedule
  | panicProcess
deriving DecidableEq, Repr

/-- Embedding of the `reschedule` match of `Trayle::render_surface` over the
render result (`ok has_rendered` is the success case; reschedule happens
exactly when nothing was rendered or the failure is recognized recoverable). -/
def render_surface_reschedule (result : Except SwapError Bool) : RenderAction :=
  match result with
  | Except.ok has_rendered =>
    if has_rendered then RenderAction.complete else RenderAction.reschedule
  | Except.error SwapError.AlreadySwapped => RenderAction.complete
  | Except.error (SwapError.TemporaryFailure (some DrmErrorKind.DeviceInactive)) =>
    RenderAction.reschedule
  | Except.error (SwapError.TemporaryFailure (some DrmErrorKind.AccessPermissionDenied)) =>
    RenderAction.reschedule
  | Except.error (SwapError.TemporaryFailure _) => RenderAction.complete
  | Except.error (SwapError.ContextLost (some DrmErrorKind.TestFailed)) =>
    RenderAction.resetAndReschedule
  | Except.error (SwapError.ContextLost _) => RenderAction.panicProcess

/-- Which registered devices still have a live frame-scheduling loop after
one device's render outcome.  A `panicProcess` outcome unwinds out of the
shared single-threaded event loop, so dispatch stops for every device; every
other outcome is scoped to the device that produced it. -/
def surviving_devices (devices : List Nat) (_failing : Nat) (a : RenderAction) :
    List Nat :=
  match a with
  | RenderAction.panicProcess => []
  | _ => devices

/-! ## Buffer-format feedback (get_surface_dmabuf_feedback, src/backend/tty.rs) -/

/-- A dmabuf format: (fourcc code, modifier).  `FormatSet` is modeled as a
list; only membership matters to the code under verification. -/
abbrev Format := Nat × Nat

/-- One tranche of a dmabuf feedback object: target device, whether it is
tagged with the Scanout flag, and its format set. -/
structure FeedbackTranche where
  dev : Nat
  scanout : Bool
  formats : List Format
deriving DecidableEq, Repr

/-- A built dmabuf feedback: the main device and the preference tranches in
order (the builder appends the main-device formats as the final fallback
tranche when building). -/
structure DmabufFeedbackM where
  mainDevice : Nat
  tranches : List FeedbackTranche
deriving DecidableEq, Repr

/-- Embedding of the `SurfaceDmabufFeedback` pair computed per surface. -/
structure SurfaceDmabufFeedbackM where
  render_feedback : DmabufFeedbackM
  scanout_feedback : DmabufFeedbackM
deriving DecidableEq, Repr

/-- Embedding of `get_surface_dmabuf_feedback`: union the primary GPU's and
the render GPU's import-capable formats, intersect the plane-advertised
formats (primary plane plus overlays) with that union to form the scanout
tranche, and build the two feedback objects exactly as the source does. -/
def get_surface_dmabuf_feedback (primary_gpu render_node surface_dev : Nat)
    (primary_formats render_formats : List Format)
    (plane_info_formats : List Format) (overlay_formats : List Format) :
    SurfaceDmabufFeedbackM :=
  let all_render_formats := primary_formats ++ render_formats
  let planes_formats :=
    (plane_info_formats ++ overlay_formats).filter
      (fun f => all_render_formats.contains f)
  let render_feedback : DmabufFeedbackM :=
    { mainDevice := primary_gpu
      tranches :=
        [⟨render_node, false, render_formats⟩,
         ⟨primary_gpu, false, primary_formats⟩] }
  let scanout_feedback : DmabufFeedbackM :=
    { mainDevice := primary_gpu
      tranches :=
        [⟨surface_dev, true, planes_formats⟩,
         ⟨render_node, false, render_formats⟩,
         ⟨primary_gpu, false, primary_formats⟩] }
  ⟨render_feedback, scanout_feedback⟩

/-! ## Mode selection in connector_connected (src/backend/tty.rs) -/

/-- Embedding of `Iterator::position`: the index of the first element
satisfying the predicate. -/
def position (p : ModeInfo → Bool) : List ModeInfo → Option Nat
  | [] => none
  | mode :: rest => if p mode then some 0 else (position p rest).map (· + 1)

/-- Embedding of the `mode_id` computation of `Trayle::connector_connected`:
the position of the first PREFERRED-flagged mode, defaulting to 0
(`.position(..).unwrap_or(0)`). -/
def mode_id (modes : List ModeInfo) : Nat :=
  (position (fun mode => mode.preferred) modes).getD 0

/-- Embedding of the `connector.modes()[mode_id]` indexing.  The Rust
indexing panics when `mode_id` is out of bounds; the panic is modeled as
`none`. -/
def connector_connected_mode (modes : List ModeInfo) : Option ModeInfo :=
  modes[mode_id modes]?

/-! ## Lease negotiation (src/backend/tty/drm_lease.rs) -/

/-- The plane lists `drm_device.planes(&crtc)` returns, restricted to the
kinds the lease handler reads. -/
structure PlaneSet where
  primary : List Nat
  cursor : List Nat
deriving DecidableEq, Repr

/-- The per-device state `lease_request` consults: the registered
non-desktop (connector, crtc) pairs, the plane query (`none` = `Err`), and
whether a `claim_plane(plane, crtc)` call succeeds. -/
structure LeaseBackend where
  non_desktop_connectors : List (Nat × Nat)
  planes : Nat → Option PlaneSet
  claim_plane : Nat → Nat → Bool

/-- Embedding of `DrmLeaseBuilder`: the resources accumulated for the grant. -/
structure LeaseBuilderM where
  connectors : List Nat
  crtcs : List Nat
  planes : List Nat
deriving DecidableEq, Repr

/-- The per-connector loop body of `lease_request`, recursing over the
requested connectors; any failure rejects the whole request (`Except.error`). -/
def lease_request_go (b : LeaseBackend) : List Nat → LeaseBuilderM →
    Except Unit LeaseBuilderM
  | [], builder => Except.ok builder
  | conn :: rest, builder =>
    match b.non_desktop_connectors.find? (fun p => p.1 = conn) with
    | none => Except.error ()
    | some entry =>
      let crtc := entry.2
      let builder1 : LeaseBuilderM :=
        { builder with
          connectors := builder.connectors ++ [conn]
          crtcs := builder.crtcs ++ [crtc] }
      match b.planes crtc with
      | none => Except.error ()
      | some planeSet =>
        match planeSet.primary.find? (fun plane => b.claim_plane plane crtc) with
        | none => Except.error ()
        | some primary_plane =>
          let builder2 : LeaseBuilderM :=
            { builder1 with planes := builder1.planes ++ [primary_plane] }
          let builder3 : LeaseBuilderM :=
            match planeSet.cursor.find? (fun plane => b.claim_plane plane crtc) with
            | some cursor_plane =>
              { builder2 with planes := builder2.planes ++ [cursor_plane] }
            | none => builder2
          lease_request_go b rest builder3

/-- Embedding of `DrmLeaseHandler::lease_request` for a device that exists. -/
def lease_request (b : LeaseBackend) (request : List Nat) :
    Except Unit LeaseBuilderM :=
  lease_request_go b request ⟨[], [], []⟩

/-- A requested connector is registered non-desktop on the device. -/
def registered_non_desktop (b : LeaseBackend) (conn : Nat) : Bool :=
  (b.non_desktop_connectors.find? (fun p => p.1 = conn)).isSome

/-- A requested connector can be fully granted: it is registered non-desktop
and a primary plane of its crtc can be claimed (the cursor plane is
irrelevant). -/
def conn_grantable (b : LeaseBackend) (conn : Nat) : Bool :=
  match b.non_desktop_connectors.find? (fun p => p.1 = conn) with
  | none => false
  | some entry =>
    match b.planes entry.2 with
    | none => false
    | some planeSet =>
      (planeSet.primary.find? (fun plane => b.claim_plane plane entry.2)).isSome

/-- The injectivity invariant of the timing-engine assignment: the crtc
values of distinct entries are pairwise distinct. -/
def ValuesInj (m : CrtcMap) : Prop :=
  m.Pairwise (fun a b => a.2 ≠ b.2)

/-- The taken-crtc set of one assignment is contained in another's. -/
def TakenSub (m m1 : CrtcMap) : Prop :=
  ∀ c, SimpleCrtcMapper.is_taken m c = true → SimpleCrtcMapper.is_taken m1 c = true

/-! # Theorems -/

/-! ## Association-list lemmas -/

@[simp]
theorem lookupKey_nil (h : Nat) : lookupKey [] h = none := rfl

@[simp]
theorem lookupKey_cons (k v : Nat) (rest : CrtcMap) (h : Nat) :
    lookupKey ((k, v) :: rest) h = if k = h then some v else lookupKey rest h := rfl

@[simp]
theorem insertPair_nil (k v : Nat) : insertPair [] k v = [(k, v)] := rfl

@[simp]
theorem insertPair_cons (k0 v0 : Nat) (rest : CrtcMap) (k v : Nat) :
    insertPair ((k0, v0) :: rest) k v =
      if k0 = k then (k, v) :: rest else (k0, v0) :: insertPair rest k v := rfl

theorem lookupKey_insertPair_self (m : CrtcMap) (k v : Nat) :
    lookupKey (insertPair m k v) k = some v := by
  induction m with
  | nil => simp
  | cons p rest ih =>
    obtain ⟨k0, v0⟩ := p
    by_cases hk : k0 = k <;> simp [hk, ih]

theorem lookupKey_insertPair_ne (m : CrtcMap) (k v h : Nat) (hne : h ≠ k) :
    lookupKey (insertPair m k v) h = lookupKey m h := by
  induction m with
  | nil => simp [Ne.symm hne]
  | cons p rest ih =>
    obtain ⟨k0, v0⟩ := p
    by_cases hk : k0 = k
    · subst hk
      simp [Ne.symm hne]
    · simp [hk, ih]

theorem insertPair_of_lookup_none (m : CrtcMap) (k v : Nat)
    (h : lookupKey m k = none) : insertPair m k v = m ++ [(k, v)] := by
  induction m with
  | nil => simp
  | cons p rest ih =>
    obtain ⟨k0, v0⟩ := p
    rw [lookupKey_cons] at h
    by_cases hk : k0 = k
    · rw [if_pos hk] at h; exact absurd h (by simp)
    · rw [if_neg hk] at h
      simp [hk, ih h]

theorem lookupKey_eraseKey (m : CrtcMap) (h h0 : Nat) :
    lookupKey (eraseKey m h) h0 = if h0 = h then none else lookupKey m h0 := by
  induction m with
  | nil => simp [eraseKey]
  | cons p rest ih =>
    obtain ⟨k0, v0⟩ := p
    by_cases hk : k0 = h
    · subst hk
      by_cases h00 : k0 = h0
      · subst h00
        simpa [eraseKey] using ih
      · simpa [eraseKey, h00] using ih
    · by_cases h00 : k0 = h0
      · subst h00
        have : ¬ (k0 = h) := hk
        simp [eraseKey, hk, fun hh : k0 = h => hk hh]
      · simpa [eraseKey, hk, h00] using ih

theorem eraseKey_of_lookup_none (m : CrtcMap) (h : Nat)
    (hl : lookupKey m h = none) : eraseKey m h = m := by
  induction m with
  | nil => rfl
  | cons p rest ih =>
    obtain ⟨k0, v0⟩ := p
    rw [lookupKey_cons] at hl
    by_cases hk : k0 = h
    · rw [if_pos hk] at hl; exact absurd hl (by simp)
    · rw [if_neg hk] at hl
      simp [eraseKey, hk]
      simpa [eraseKey] using ih hl

theorem lookupKey_mem (m : CrtcMap) (h v : Nat)
    (hl : lookupKey m h = some v) : (h, v) ∈ m := by
  induction m with
  | nil => simp at hl
  | cons p rest ih =>
    obtain ⟨k0, v0⟩ := p
    rw [lookupKey_cons] at hl
    by_cases hk : k0 = h
    · rw [if_pos hk] at hl
      subst hk
      cases hl
      exact List.mem_cons_self _ _
    · rw [if_neg hk] at hl
      exact List.mem_cons_of_mem _ (ih hl)

theorem is_taken_iff (m : CrtcMap) (c : Nat) :
    SimpleCrtcMapper.is_taken m c = true ↔ ∃ p ∈ m, p.2 = c := by
  simp [SimpleCrtcMapper.is_taken, List.any_eq_true]

theorem not_taken_iff (m : CrtcMap) (c : Nat) :
    SimpleCrtcMapper.is_taken m c = false ↔ ∀ p ∈ m, p.2 ≠ c := by
  rw [← Bool.not_eq_true, is_taken_iff]
  push_neg
  rfl

theorem is_taken_insertPair_of_taken (m : CrtcMap) (k v c : Nat)
    (hfresh : lookupKey m k = none)
    (h : SimpleCrtcMapper.is_taken m c = true) :
    SimpleCrtcMapper.is_taken (insertPair m k v) c = true := by
  rw [insertPair_of_lookup_none m k v hfresh]
  rw [is_taken_iff] at h ⊢
  obtain ⟨p, hp, hpc⟩ := h
  exact ⟨p, List.mem_append_left _ hp, hpc⟩

theorem mem_insertPair (m : CrtcMap) (k v : Nat) (p : Nat × Nat)
    (h : p ∈ insertPair m k v) : p ∈ m ∨ p = (k, v) := by
  induction m with
  | nil => exact Or.inr (by simpa using h)
  | cons q rest ih =>
    obtain ⟨k0, v0⟩ := q
    by_cases hk : k0 = k
    · rw [insertPair_cons, if_pos hk] at h
      rcases List.mem_cons.mp h with rfl | hp
      · exact Or.inr rfl
      · exact Or.inl (List.mem_cons_of_mem _ hp)
    · rw [insertPair_cons, if_neg hk] at h
      rcases List.mem_cons.mp h with rfl | hp
      · exact Or.inl (List.mem_cons_self _ _)
      · rcases ih hp with hm | he
        · exact Or.inl (List.mem_cons_of_mem _ hm)
        · exact Or.inr he

/-! ## The injectivity invariant is preserved -/

theorem valuesInj_nil : ValuesInj [] := List.Pairwise.nil

theorem ValuesInj.eraseKey {m : CrtcMap} (hm : ValuesInj m) (h : Nat) :
    ValuesInj (Trayle.eraseKey m h) :=
  List.Pairwise.sublist (List.filter_sublist m) hm

theorem ValuesInj.insertPair {m : CrtcMap} (hm : ValuesInj m) (k c : Nat)
    (hc : SimpleCrtcMapper.is_taken m c = false) :
    ValuesInj (Trayle.insertPair m k c) := by
  induction m with
  | nil => simp [ValuesInj]
  | cons p rest ih =>
    obtain ⟨k0, v0⟩ := p
    rw [ValuesInj, List.pairwise_cons] at hm
    obtain ⟨hhead, htail⟩ := hm
    have hc0 : v0 ≠ c := (not_taken_iff _ c).mp hc (k0, v0) (List.mem_cons_self _ _)
    have hcrest : SimpleCrtcMapper.is_taken rest c = false := by
      rw [not_taken_iff] at hc ⊢
      exact fun p hp => hc p (List.mem_cons_of_mem _ hp)
    by_cases hk : k0 = k
    · rw [Trayle.insertPair_cons, if_pos hk]
      rw [ValuesInj, List.pairwise_cons]
      exact ⟨fun p hp => Ne.symm ((not_taken_iff _ c).mp hcrest p hp), htail⟩
    · rw [Trayle.insertPair_cons, if_neg hk]
      rw [ValuesInj, List.pairwise_cons]
      refine ⟨?_, ih htail hcrest⟩
      intro p hp
      rcases mem_insertPair rest k c p hp with hm | rfl
      · exact hhead p hm
      · exact hc0

/-! ## Mapper lemmas -/

theorem restored_eq_some_iff (drm : DrmDevice) (m : CrtcMap) (conn : ConnectorInfo)
    (c : Nat) :
    SimpleCrtcMapper.restored_for_connector drm m conn = some c ↔
    ∃ encH enc, conn.currentEncoder = some encH ∧ drm.getEncoder encH = some enc ∧
      enc.crtc = some c ∧ SimpleCrtcMapper.is_available m c = true := by
  unfold SimpleCrtcMapper.restored_for_connector
  constructor
  · intro h
    rw [Option.bind_eq_some] at h
    obtain ⟨encH, h1, h⟩ := h
    rw [Option.bind_eq_some] at h
    obtain ⟨enc, h2, h⟩ := h
    rw [Option.bind_eq_some] at h
    obtain ⟨k, h3, h⟩ := h
    by_cases hav : SimpleCrtcMapper.is_available m k = true
    · rw [if_pos hav] at h
      cases h
      exact ⟨encH, enc, h1, h2, h3, hav⟩
    · rw [if_neg hav] at h
      exact absurd h (by simp)
  · rintro ⟨encH, enc, h1, h2, h3, hav⟩
    rw [h1, Option.some_bind, h2, Option.some_bind, h3, Option.some_bind, if_pos hav]

theorem restored_available (drm : DrmDevice) (m : CrtcMap) (conn : ConnectorInfo)
    (c : Nat) (h : SimpleCrtcMapper.restored_for_connector drm m conn = some c) :
    SimpleCrtcMapper.is_taken m c = false := by
  obtain ⟨-, -, -, -, -, hav⟩ := (restored_eq_some_iff drm m conn c).mp h
  simpa [SimpleCrtcMapper.is_available] using hav

theorem next_available_available (drm : DrmDevice) (m : CrtcMap)
    (conn : ConnectorInfo) (c : Nat)
    (h : SimpleCrtcMapper.next_available_for_connector drm m conn = some c) :
    SimpleCrtcMapper.is_taken m c = false := by
  unfold SimpleCrtcMapper.next_available_for_connector at h
  obtain ⟨enc, -, hfind⟩ := List.exists_of_findSome?_eq_some h
  have := List.find?_some hfind
  simpa [SimpleCrtcMapper.is_available] using this

theorem restored_none_mono (drm : DrmDevice) (m m1 : CrtcMap) (conn : ConnectorInfo)
    (hmono : TakenSub m m1)
    (h : SimpleCrtcMapper.restored_for_connector drm m conn = none) :
    SimpleCrtcMapper.restored_for_connector drm m1 conn = none := by
  cases hres : SimpleCrtcMapper.restored_for_connector drm m1 conn with
  | none => rfl
  | some c =>
    obtain ⟨encH, enc, h1, h2, h3, hav⟩ := (restored_eq_some_iff drm m1 conn c).mp hres
    have hchain : SimpleCrtcMapper.restored_for_connector drm m conn =
        (if SimpleCrtcMapper.is_available m c = true then some c else none) := by
      unfold SimpleCrtcMapper.restored_for_connector
      rw [h1, Option.some_bind, h2, Option.some_bind, h3, Option.some_bind]
    rw [hchain] at h
    have htk : SimpleCrtcMapper.is_taken m c = true := by
      by_cases hav0 : SimpleCrtcMapper.is_available m c = true
      · rw [if_pos hav0] at h
        exact absurd h (by simp)
      · simpa [SimpleCrtcMapper.is_available] using hav0
    simp [SimpleCrtcMapper.is_available, hmono c htk] at hav

theorem next_available_none_mono (drm : DrmDevice) (m m1 : CrtcMap)
    (conn : ConnectorInfo) (hmono : TakenSub m m1)
    (h : SimpleCrtcMapper.next_available_for_connector drm m conn = none) :
    SimpleCrtcMapper.next_available_for_connector drm m1 conn = none := by
  unfold SimpleCrtcMapper.next_available_for_connector at h ⊢
  rw [List.findSome?_eq_none_iff] at h ⊢
  intro enc henc
  have hin := h enc henc
  rw [List.find?_eq_none] at hin ⊢
  intro crtc hcrtc
  have h1 : SimpleCrtcMapper.is_taken m crtc = true := by
    have := hin crtc hcrtc
    simpa [SimpleCrtcMapper.is_available] using this
  simp [SimpleCrtcMapper.is_available, hmono crtc h1]

theorem retainFold_valuesInj (drm : DrmDevice) :
    ∀ (l : List ConnectorInfo) (m : CrtcMap), ValuesInj m →
      ValuesInj (SimpleCrtcMapper.retainFold drm l m).1 := by
  intro l
  induction l with
  | nil => intro m hm; exact hm
  | cons conn rest ih =>
    intro m hm
    cases hre : SimpleCrtcMapper.restored_for_connector drm m conn with
    | some crtc =>
      have hav := restored_available drm m conn crtc hre
      simpa [SimpleCrtcMapper.retainFold, hre] using
        ih _ (hm.insertPair conn.handle crtc hav)
    | none =>
      simpa [SimpleCrtcMapper.retainFold, hre] using ih m hm

theorem allocFold_valuesInj (drm : DrmDevice) :
    ∀ (l : List ConnectorInfo) (m : CrtcMap), ValuesInj m →
      ValuesInj (SimpleCrtcMapper.allocFold drm l m) := by
  intro l
  induction l with
  | nil => intro m hm; exact hm
  | cons conn rest ih =>
    intro m hm
    cases hna : SimpleCrtcMapper.next_available_for_connector drm m conn with
    | some crtc =>
      have hav := next_available_available drm m conn crtc hna
      simpa [SimpleCrtcMapper.allocFold, hna] using
        ih _ (hm.insertPair conn.handle crtc hav)
    | none =>
      simpa [SimpleCrtcMapper.allocFold, hna] using ih m hm

theorem releasePass_valuesInj :
    ∀ (conns : List ConnectorInfo) (m : CrtcMap), ValuesInj m →
      ValuesInj (SimpleCrtcMapper.releasePass conns m) := by
  intro conns
  induction conns with
  | nil => intro m hm; exact hm
  | cons conn rest ih =>
    intro m hm
    by_cases hs : conn.state = ConnState.Connected
    · simpa [SimpleCrtcMapper.releasePass, hs] using ih m hm
    · simpa [SimpleCrtcMapper.releasePass, hs] using ih _ (hm.eraseKey conn.handle)

theorem map_valuesInj (drm : DrmDevice) (conns : List ConnectorInfo) (m : CrtcMap)
    (hm : ValuesInj m) : ValuesInj (SimpleCrtcMapper.map drm conns m) := by
  simp only [SimpleCrtcMapper.map]
  exact allocFold_valuesInj drm _ _
    (retainFold_valuesInj drm _ _ (releasePass_valuesInj conns m hm))

theorem runMaps_valuesInj (ops : List (DrmDevice × List ConnectorInfo)) :
    ValuesInj (runMaps ops) := by
  have hgen : ∀ (l : List (DrmDevice × List ConnectorInfo)) (m : CrtcMap),
      ValuesInj m →
      ValuesInj (l.foldl (fun m op => SimpleCrtcMapper.map op.1 op.2 m) m) := by
    intro l
    induction l with
    | nil => intro m hm; exact hm
    | cons op rest ih =>
      intro m hm
      simpa using ih _ (map_valuesInj op.1 op.2 m hm)
  exact hgen ops [] valuesInj_nil

theorem pairwise_snd_ne {m : CrtcMap}
    (hm : m.Pairwise (fun a b => a.2 ≠ b.2)) :
    ∀ {p q : Nat × Nat}, p ∈ m → q ∈ m → p ≠ q → p.2 ≠ q.2 := by
  induction hm with
  | nil => intro p q hp _ _; exact absurd hp (by simp)
  | @cons a l hhead _ ih =>
    intro p q hp hq hne
    rcases List.mem_cons.mp hp with rfl | hp0 <;>
      rcases List.mem_cons.mp hq with rfl | hq0
    · exact absurd rfl hne
    · exact hhead q hq0
    · exact Ne.symm (hhead p hp0)
    · exact ih hp0 hq0 hne

/-- Full specification of the allocation phase: existing bindings persist,
the taken set only grows, untouched handles keep their lookup, a connector
left unassigned could not allocate even from the final state, and any new
binding's crtc was free in the initial state.  Hypotheses: the connectors
processed are fresh (no binding yet) and have pairwise distinct handles. -/
theorem allocFold_spec (drm : DrmDevice) :
    ∀ (l : List ConnectorInfo) (m : CrtcMap),
      (∀ c ∈ l, lookupKey m c.handle = none) →
      (l.map ConnectorInfo.handle).Nodup →
      (∀ h v, lookupKey m h = some v →
        lookupKey (SimpleCrtcMapper.allocFold drm l m) h = some v) ∧
      TakenSub m (SimpleCrtcMapper.allocFold drm l m) ∧
      (∀ h, (∀ c ∈ l, c.handle ≠ h) →
        lookupKey (SimpleCrtcMapper.allocFold drm l m) h = lookupKey m h) ∧
      (∀ c ∈ l, lookupKey (SimpleCrtcMapper.allocFold drm l m) c.handle = none →
        SimpleCrtcMapper.next_available_for_connector drm
          (SimpleCrtcMapper.allocFold drm l m) c = none) ∧
      (∀ h k, lookupKey (SimpleCrtcMapper.allocFold drm l m) h = some k →
        lookupKey m h = some k ∨ SimpleCrtcMapper.is_taken m k = false) := by
  intro l
  induction l with
  | nil =>
    intro m _ _
    exact ⟨fun h v hv => hv, fun c hc => hc, fun h _ => rfl,
      fun c hc => absurd hc (by simp), fun h k hk => Or.inl hk⟩
  | cons conn rest ih =>
    intro m hfresh hnd
    rw [List.map_cons, List.nodup_cons] at hnd
    obtain ⟨hnotin, hndrest⟩ := hnd
    have hfconn : lookupKey m conn.handle = none := hfresh conn (List.mem_cons_self _ _)
    have hneq : ∀ c ∈ rest, c.handle ≠ conn.handle := by
      intro c hc he
      exact hnotin (he ▸ List.mem_map_of_mem ConnectorInfo.handle hc)
    cases hna : SimpleCrtcMapper.next_available_for_connector drm m conn with
    | some crtc =>
      have havail := next_available_available drm m conn crtc hna
      have hunf : SimpleCrtcMapper.allocFold drm (conn :: rest) m =
          SimpleCrtcMapper.allocFold drm rest (insertPair m conn.handle crtc) := by
        simp only [SimpleCrtcMapper.allocFold, hna]
      rw [hunf]
      have hfresh1 : ∀ c ∈ rest,
          lookupKey (insertPair m conn.handle crtc) c.handle = none := fun c hc =>
        (lookupKey_insertPair_ne m conn.handle crtc c.handle (hneq c hc)).trans
          (hfresh c (List.mem_cons_of_mem _ hc))
      obtain ⟨p1, p2, p3, p4, p5⟩ := ih (insertPair m conn.handle crtc) hfresh1 hndrest
      have hm1self : lookupKey (insertPair m conn.handle crtc) conn.handle = some crtc :=
        lookupKey_insertPair_self m conn.handle crtc
      have htksub : TakenSub m (insertPair m conn.handle crtc) := fun c hc =>
        is_taken_insertPair_of_taken m conn.handle crtc c hfconn hc
      refine ⟨?_, ?_, ?_, ?_, ?_⟩
      · intro h v hv
        have hne : h ≠ conn.handle := by
          intro he
          rw [he, hfconn] at hv
          exact absurd hv (by simp)
        exact p1 h v
          (by rw [lookupKey_insertPair_ne m conn.handle crtc h hne]; exact hv)
      · exact fun c hc => p2 c (htksub c hc)
      · intro h hall
        have hne : conn.handle ≠ h := hall conn (List.mem_cons_self _ _)
        rw [p3 h (fun c hc => hall c (List.mem_cons_of_mem _ hc)),
          lookupKey_insertPair_ne m conn.handle crtc h (Ne.symm hne)]
      · intro c hc hnone
        rcases List.mem_cons.mp hc with rfl | hcrest
        · have := p1 c.handle crtc hm1self
          rw [hnone] at this
          exact absurd this (by simp)
        · exact p4 c hcrest hnone
      · intro h k hk
        rcases p5 h k hk with hsome | hfree
        · by_cases he : h = conn.handle
          · subst he
            have : some crtc = some k := hm1self.symm.trans hsome
            cases this
            exact Or.inr havail
          · rw [lookupKey_insertPair_ne m conn.handle crtc h he] at hsome
            exact Or.inl hsome
        · cases hx : SimpleCrtcMapper.is_taken m k with
          | false => exact Or.inr rfl
          | true =>
            rw [htksub k hx] at hfree
            exact absurd hfree (by simp)
    | none =>
      have hunf : SimpleCrtcMapper.allocFold drm (conn :: rest) m =
          SimpleCrtcMapper.allocFold drm rest m := by
        simp only [SimpleCrtcMapper.allocFold, hna]
      rw [hunf]
      obtain ⟨p1, p2, p3, p4, p5⟩ :=
        ih m (fun c hc => hfresh c (List.mem_cons_of_mem _ hc)) hndrest
      refine ⟨p1, p2, ?_, ?_, p5⟩
      · intro h hall
        exact p3 h (fun c hc => hall c (List.mem_cons_of_mem _ hc))
      · intro c hc hnone
        rcases List.mem_cons.mp hc with rfl | hcrest
        · exact next_available_none_mono drm m _ c p2 hna
        · exact p4 c hcrest hnone

/-- Full specification of the restore (retain) phase: existing bindings
persist, the taken set only grows, untouched handles keep their lookup,
the pending list is the sublist of connectors whose restore failed (and
still fails from the final state), every non-pending connector got a
binding, any new binding's crtc was free initially, and the pending
handles stay pairwise distinct. -/
theorem retainFold_spec (drm : DrmDevice) :
    ∀ (l : List ConnectorInfo) (m : CrtcMap),
      (∀ c ∈ l, lookupKey m c.handle = none) →
      (l.map ConnectorInfo.handle).Nodup →
      (∀ h v, lookupKey m h = some v →
        lookupKey (SimpleCrtcMapper.retainFold drm l m).1 h = some v) ∧
      TakenSub m (SimpleCrtcMapper.retainFold drm l m).1 ∧
      (∀ h, (∀ c ∈ l, c.handle ≠ h) →
        lookupKey (SimpleCrtcMapper.retainFold drm l m).1 h = lookupKey m h) ∧
      (∀ c ∈ (SimpleCrtcMapper.retainFold drm l m).2, c ∈ l) ∧
      (∀ c ∈ (SimpleCrtcMapper.retainFold drm l m).2,
        lookupKey (SimpleCrtcMapper.retainFold drm l m).1 c.handle = none) ∧
      (∀ c ∈ (SimpleCrtcMapper.retainFold drm l m).2,
        SimpleCrtcMapper.restored_for_connector drm
          (SimpleCrtcMapper.retainFold drm l m).1 c = none) ∧
      (∀ c ∈ l, c ∉ (SimpleCrtcMapper.retainFold drm l m).2 →
        ∃ k, lookupKey (SimpleCrtcMapper.retainFold drm l m).1 c.handle = some k) ∧
      (∀ h k, lookupKey (SimpleCrtcMapper.retainFold drm l m).1 h = some k →
        lookupKey m h = some k ∨ SimpleCrtcMapper.is_taken m k = false) ∧
      (((SimpleCrtcMapper.retainFold drm l m).2.map ConnectorInfo.handle).Nodup) := by
  intro l
  induction l with
  | nil =>
    intro m _ _
    exact ⟨fun h v hv => hv, fun c hc => hc, fun h _ => rfl,
      fun c hc => absurd hc (by simp [SimpleCrtcMapper.retainFold]),
      fun c hc => absurd hc (by simp [SimpleCrtcMapper.retainFold]),
      fun c hc => absurd hc (by simp [SimpleCrtcMapper.retainFold]),
      fun c hc _ => absurd hc (by simp),
      fun h k hk => Or.inl hk, by simp [SimpleCrtcMapper.retainFold]⟩
  | cons conn rest ih =>
    intro m hfresh hnd
    rw [List.map_cons, List.nodup_cons] at hnd
    obtain ⟨hnotin, hndrest⟩ := hnd
    have hfconn : lookupKey m conn.handle = none := hfresh conn (List.mem_cons_self _ _)
    have hneq : ∀ c ∈ rest, c.handle ≠ conn.handle := by
      intro c hc he
      exact hnotin (he ▸ List.mem_map_of_mem ConnectorInfo.handle hc)
    cases hre : SimpleCrtcMapper.restored_for_connector drm m conn with
    | some crtc =>
      have havail := restored_available drm m conn crtc hre
      have hunf : SimpleCrtcMapper.retainFold drm (conn :: rest) m =
          SimpleCrtcMapper.retainFold drm rest (insertPair m conn.handle crtc) := by
        simp only [SimpleCrtcMapper.retainFold, hre]
      rw [hunf]
      have hfresh1 : ∀ c ∈ rest,
          lookupKey (insertPair m conn.handle crtc) c.handle = none := fun c hc =>
        (lookupKey_insertPair_ne m conn.handle crtc c.handle (hneq c hc)).trans
          (hfresh c (List.mem_cons_of_mem _ hc))
      obtain ⟨p1, p2, p3, p4, p5, p6, p7, p8, p9⟩ :=
        ih (insertPair m conn.handle crtc) hfresh1 hndrest
      have hm1self : lookupKey (insertPair m conn.handle crtc) conn.handle = some crtc :=
        lookupKey_insertPair_self m conn.handle crtc
      have htksub : TakenSub m (insertPair m conn.handle crtc) := fun c hc =>
        is_taken_insertPair_of_taken m conn.handle crtc c hfconn hc
      refine ⟨?_, ?_, ?_, ?_, p5, p6, ?_, ?_, p9⟩
      · intro h v hv
        have hne : h ≠ conn.handle := by
          intro he
          rw [he, hfconn] at hv
          exact absurd hv (by simp)
        exact p1 h v
          (by rw [lookupKey_insertPair_ne m conn.handle crtc h hne]; exact hv)
      · exact fun c hc => p2 c (htksub c hc)
      · intro h hall
        have hne : conn.handle ≠ h := hall conn (List.mem_cons_self _ _)
        rw [p3 h (fun c hc => hall c (List.mem_cons_of_mem _ hc)),
          lookupKey_insertPair_ne m conn.handle crtc h (Ne.symm hne)]
      · exact fun c hc => List.mem_cons_of_mem _ (p4 c hc)
      · intro c hc hcnot
        rcases List.mem_cons.mp hc with rfl | hcrest
        · exact ⟨crtc, p1 c.handle crtc hm1self⟩
        · exact p7 c hcrest hcnot
      · intro h k hk
        rcases p8 h k hk with hsome | hfree
        · by_cases he : h = conn.handle
          · subst he
            have heq : some crtc = some k := hm1self.symm.trans hsome
            cases heq
            exact Or.inr havail
          · rw [lookupKey_insertPair_ne m conn.handle crtc h he] at hsome
            exact Or.inl hsome
        · cases hx : SimpleCrtcMapper.is_taken m k with
          | false => exact Or.inr rfl
          | true =>
            rw [htksub k hx] at hfree
            exact absurd hfree (by simp)
    | none =>
      have hunf1 : (SimpleCrtcMapper.retainFold drm (conn :: rest) m).1 =
          (SimpleCrtcMapper.retainFold drm rest m).1 := by
        simp only [SimpleCrtcMapper.retainFold, hre]
      have hunf2 : (SimpleCrtcMapper.retainFold drm (conn :: rest) m).2 =
          conn :: (SimpleCrtcMapper.retainFold drm rest m).2 := by
        simp only [SimpleCrtcMapper.retainFold, hre]
      rw [hunf1, hunf2]
      obtain ⟨p1, p2, p3, p4, p5, p6, p7, p8, p9⟩ :=
        ih m (fun c hc => hfresh c (List.mem_cons_of_mem _ hc)) hndrest
      have hconnlook : lookupKey (SimpleCrtcMapper.retainFold drm rest m).1 conn.handle
          = none := by
        rw [p3 conn.handle (fun c hc => hneq c hc)]
        exact hfconn
      refine ⟨p1, p2, ?_, ?_, ?_, ?_, ?_, p8, ?_⟩
      · intro h hall
        exact p3 h (fun c hc => hall c (List.mem_cons_of_mem _ hc))
      · intro c hc
        rcases List.mem_cons.mp hc with rfl | hcrest
        · exact List.mem_cons_self _ _
        · exact List.mem_cons_of_mem _ (p4 c hcrest)
      · intro c hc
        rcases List.mem_cons.mp hc with rfl | hcrest
        · exact hconnlook
        · exact p5 c hcrest
      · intro c hc
        rcases List.mem_cons.mp hc with rfl | hcrest
        · exact restored_none_mono drm m _ c p2 hre
        · exact p6 c hcrest
      · intro c hc hcnot
        rcases List.mem_cons.mp hc with rfl | hcrest
        · exact absurd (List.mem_cons_self _ _) hcnot
        · exact p7 c hcrest (fun hmem => hcnot (List.mem_cons_of_mem _ hmem))
      · rw [List.map_cons, List.nodup_cons]
        refine ⟨?_, p9⟩
        intro hmem
        rw [List.mem_map] at hmem
        obtain ⟨c, hc, hch⟩ := hmem
        exact hnotin (hch ▸ List.mem_map_of_mem ConnectorInfo.handle (p4 c hc))

/-! ## Release-phase lemmas -/

theorem releasePass_none_mono :
    ∀ (conns : List ConnectorInfo) (m : CrtcMap) (h : Nat),
      lookupKey m h = none →
      lookupKey (SimpleCrtcMapper.releasePass conns m) h = none := by
  intro conns
  induction conns with
  | nil => intro m h hm; exact hm
  | cons conn rest ih =>
    intro m h hm
    by_cases hs : conn.state = ConnState.Connected
    · rw [SimpleCrtcMapper.releasePass, List.foldl_cons, if_pos hs]
      exact ih m h hm
    · rw [SimpleCrtcMapper.releasePass, List.foldl_cons, if_neg hs]
      refine ih _ h ?_
      rw [lookupKey_eraseKey]
      by_cases hh : h = conn.handle
      · rw [if_pos hh]
      · rw [if_neg hh]; exact hm

theorem releasePass_erases :
    ∀ (conns : List ConnectorInfo) (m : CrtcMap) (c : ConnectorInfo),
      c ∈ conns → c.state ≠ ConnState.Connected →
      lookupKey (SimpleCrtcMapper.releasePass conns m) c.handle = none := by
  intro conns
  induction conns with
  | nil => intro m c hc; exact absurd hc (by simp)
  | cons conn rest ih =>
    intro m c hc hs
    rcases List.mem_cons.mp hc with rfl | hcrest
    · rw [SimpleCrtcMapper.releasePass, List.foldl_cons, if_neg hs]
      refine releasePass_none_mono rest _ c.handle ?_
      rw [lookupKey_eraseKey, if_pos rfl]
    · by_cases hs0 : conn.state = ConnState.Connected
      · rw [SimpleCrtcMapper.releasePass, List.foldl_cons, if_pos hs0]
        exact ih m c hcrest hs
      · rw [SimpleCrtcMapper.releasePass, List.foldl_cons, if_neg hs0]
        exact ih _ c hcrest hs

theorem releasePass_lookup_eq :
    ∀ (conns : List ConnectorInfo) (m : CrtcMap) (h : Nat),
      (∀ c ∈ conns, c.handle = h → c.state = ConnState.Connected) →
      lookupKey (SimpleCrtcMapper.releasePass conns m) h = lookupKey m h := by
  intro conns
  induction conns with
  | nil => intro m h _; rfl
  | cons conn rest ih =>
    intro m h hall
    by_cases hs : conn.state = ConnState.Connected
    · rw [SimpleCrtcMapper.releasePass, List.foldl_cons, if_pos hs]
      exact ih m h (fun c hc => hall c (List.mem_cons_of_mem _ hc))
    · rw [SimpleCrtcMapper.releasePass, List.foldl_cons, if_neg hs]
      have hne : conn.handle ≠ h := fun he =>
        hs (hall conn (List.mem_cons_self _ _) he)
      have herase : lookupKey (eraseKey m conn.handle) h = lookupKey m h := by
        rw [lookupKey_eraseKey, if_neg (fun hh => hne hh.symm)]
      exact (ih _ h (fun c hc => hall c (List.mem_cons_of_mem _ hc))).trans herase

theorem releasePass_id :
    ∀ (conns : List ConnectorInfo) (m : CrtcMap),
      (∀ c ∈ conns, c.state ≠ ConnState.Connected →
        lookupKey m c.handle = none) →
      SimpleCrtcMapper.releasePass conns m = m := by
  intro conns
  induction conns with
  | nil => intro m _; rfl
  | cons conn rest ih =>
    intro m hall
    by_cases hs : conn.state = ConnState.Connected
    · rw [SimpleCrtcMapper.releasePass, List.foldl_cons, if_pos hs]
      exact ih m (fun c hc => hall c (List.mem_cons_of_mem _ hc))
    · rw [SimpleCrtcMapper.releasePass, List.foldl_cons, if_neg hs]
      rw [eraseKey_of_lookup_none m conn.handle
        (hall conn (List.mem_cons_self _ _) hs)]
      exact ih m (fun c hc => hall c (List.mem_cons_of_mem _ hc))

/-! ## The map pass as the composition of its three phases -/

theorem map_unfold (drm : DrmDevice) (conns : List ConnectorInfo) (m : CrtcMap) :
    SimpleCrtcMapper.map drm conns m =
      SimpleCrtcMapper.allocFold drm
        (SimpleCrtcMapper.retainFold drm
          (conns.filter (fun conn => conn.state == ConnState.Connected &&
            (lookupKey (SimpleCrtcMapper.releasePass conns m) conn.handle).isNone))
          (SimpleCrtcMapper.releasePass conns m)).2
        (SimpleCrtcMapper.retainFold drm
          (conns.filter (fun conn => conn.state == ConnState.Connected &&
            (lookupKey (SimpleCrtcMapper.releasePass conns m) conn.handle).isNone))
          (SimpleCrtcMapper.releasePass conns m)).1 := rfl

theorem needs_fresh (conns : List ConnectorInfo) (m : CrtcMap) :
    ∀ c ∈ conns.filter (fun conn => conn.state == ConnState.Connected &&
        (lookupKey (SimpleCrtcMapper.releasePass conns m) conn.handle).isNone),
      lookupKey (SimpleCrtcMapper.releasePass conns m) c.handle = none := by
  intro c hc
  rw [List.mem_filter, Bool.and_eq_true] at hc
  exact Option.isNone_iff_eq_none.mp hc.2.2

theorem needs_nodup (conns : List ConnectorInfo) (m : CrtcMap)
    (hnd : (conns.map ConnectorInfo.handle).Nodup) :
    ((conns.filter (fun conn => conn.state == ConnState.Connected &&
        (lookupKey (SimpleCrtcMapper.releasePass conns m) conn.handle).isNone)).map
      ConnectorInfo.handle).Nodup :=
  hnd.sublist (List.Sublist.map ConnectorInfo.handle (List.filter_sublist conns))

/-! ## C1: the connector-to-crtc assignment stays injective -/

/-- C1: after any sequence of `SimpleCrtcMapper::map` operations starting
from the empty assignment, no two distinct connector handles are mapped to
the same crtc handle. -/
theorem crtc_assignment_injective (ops : List (DrmDevice × List ConnectorInfo))
    (h1 h2 c : Nat)
    (ha : SimpleCrtcMapper.crtc_for_connector (runMaps ops) h1 = some c)
    (hb : SimpleCrtcMapper.crtc_for_connector (runMaps ops) h2 = some c) :
    h1 = h2 := by
  by_contra hne
  have hinj := runMaps_valuesInj ops
  have hm1 : (h1, c) ∈ runMaps ops := lookupKey_mem _ _ _ ha
  have hm2 : (h2, c) ∈ runMaps ops := lookupKey_mem _ _ _ hb
  have hpair : ((h1, c) : Nat × Nat) ≠ (h2, c) := fun he =>
    hne (congrArg Prod.fst he)
  unfold ValuesInj at hinj
  exact absurd rfl (@pairwise_snd_ne (runMaps ops) hinj (h1, c) (h2, c) hm1 hm2 hpair)

/-- Closed witness for the C1 theorem: one map pass over two connected
connectors sharing an encoder type assigns them the two distinct crtcs. -/
theorem crtc_assignment_injective_witness : (10 : Nat) = 10 :=
  crtc_assignment_injective
    [(⟨[10, 11], [1, 2],
        fun h =>
          if h = 10 then some ⟨10, ConnState.Connected, none, [0], []⟩
          else if h = 11 then some ⟨11, ConnState.Connected, none, [0], []⟩
          else none,
        fun e => if e = 0 then some ⟨none, [1, 2]⟩ else none⟩,
      [⟨10, ConnState.Connected, none, [0], []⟩,
       ⟨11, ConnState.Connected, none, [0], []⟩])]
    10 10 1 (by decide) (by decide)

/-! ## C4: a map pass keeps existing claims and assigns distinct engines -/

/-- C4: if connector A already holds timing engine e1 and connector B is
newly connected (no claim yet), then after a `map` pass in which both are
reported Connected, A still holds e1, and whatever engine the pass gives B
differs from e1 (B may also end up with no engine when no compatible one
is free). -/
theorem map_preserves_existing_claim (drm : DrmDevice) (conns : List ConnectorInfo)
    (m : CrtcMap) (hnd : (conns.map ConnectorInfo.handle).Nodup)
    (A B : ConnectorInfo) (e1 : Nat)
    (hA : A ∈ conns) (hAstate : A.state = ConnState.Connected)
    (hAm : lookupKey m A.handle = some e1)
    (_hB : B ∈ conns) (_hBstate : B.state = ConnState.Connected)
    (hBm : lookupKey m B.handle = none) :
    SimpleCrtcMapper.crtc_for_connector (SimpleCrtcMapper.map drm conns m) A.handle
      = some e1 ∧
    ∀ k, SimpleCrtcMapper.crtc_for_connector (SimpleCrtcMapper.map drm conns m)
        B.handle = some k → k ≠ e1 := by
  have hAonly : ∀ c ∈ conns, c.handle = A.handle → c.state = ConnState.Connected := by
    intro c hc hch
    have hcA : c = A :=
      @List.inj_on_of_nodup_map _ _ ConnectorInfo.handle conns hnd c hc A hA hch
    rw [hcA]
    exact hAstate
  have hA1 : lookupKey (SimpleCrtcMapper.releasePass conns m) A.handle = some e1 := by
    rw [releasePass_lookup_eq conns m A.handle hAonly]
    exact hAm
  have hB1 : lookupKey (SimpleCrtcMapper.releasePass conns m) B.handle = none :=
    releasePass_none_mono conns m B.handle hBm
  obtain ⟨r1, r2, r3, r4, r5, r6, r7, r8, r9⟩ :=
    retainFold_spec drm
      (conns.filter (fun conn => conn.state == ConnState.Connected &&
        (lookupKey (SimpleCrtcMapper.releasePass conns m) conn.handle).isNone))
      (SimpleCrtcMapper.releasePass conns m)
      (needs_fresh conns m) (needs_nodup conns m hnd)
  obtain ⟨a1, a2, a3, a4, a5⟩ :=
    allocFold_spec drm
      (SimpleCrtcMapper.retainFold drm
        (conns.filter (fun conn => conn.state == ConnState.Connected &&
          (lookupKey (SimpleCrtcMapper.releasePass conns m) conn.handle).isNone))
        (SimpleCrtcMapper.releasePass conns m)).2
      (SimpleCrtcMapper.retainFold drm
        (conns.filter (fun conn => conn.state == ConnState.Connected &&
          (lookupKey (SimpleCrtcMapper.releasePass conns m) conn.handle).isNone))
        (SimpleCrtcMapper.releasePass conns m)).1
      r5 r9
  constructor
  · show lookupKey (SimpleCrtcMapper.map drm conns m) A.handle = some e1
    rw [map_unfold]
    exact a1 A.handle e1 (r1 A.handle e1 hA1)
  · intro k hk
    have hk1 : lookupKey (SimpleCrtcMapper.map drm conns m) B.handle = some k := hk
    rw [map_unfold] at hk1
    have htakenm2 : SimpleCrtcMapper.is_taken
        (SimpleCrtcMapper.retainFold drm
          (conns.filter (fun conn => conn.state == ConnState.Connected &&
            (lookupKey (SimpleCrtcMapper.releasePass conns m) conn.handle).isNone))
          (SimpleCrtcMapper.releasePass conns m)).1 e1 = true := by
      rw [is_taken_iff]
      exact ⟨(A.handle, e1), lookupKey_mem _ _ _ (r1 A.handle e1 hA1), rfl⟩
    have htakenm1 : SimpleCrtcMapper.is_taken
        (SimpleCrtcMapper.releasePass conns m) e1 = true := by
      rw [is_taken_iff]
      exact ⟨(A.handle, e1), lookupKey_mem _ _ _ hA1, rfl⟩
    rcases a5 B.handle k hk1 with hsome | hfree
    · rcases r8 B.handle k hsome with hsome1 | hfree1
      · rw [hB1] at hsome1
        exact absurd hsome1 (by simp)
      · intro he
        rw [he, htakenm1] at hfree1
        exact absurd hfree1 (by simp)
    · intro he
      rw [he, htakenm2] at hfree
      exact absurd hfree (by simp)

/-- Closed witness for the C4 theorem: connector 10 already holds engine 1;
a pass over connectors 10 and 11 (both Connected, compatible with engines
1 and 2) keeps 10 on engine 1, and whatever engine 11 received is not 1. -/
theorem map_preserves_existing_claim_witness :
    SimpleCrtcMapper.crtc_for_connector
      (SimpleCrtcMapper.map
        ⟨[10, 11], [1, 2],
          fun h =>
            if h = 10 then some ⟨10, ConnState.Connected, none, [0], []⟩
            else if h = 11 then some ⟨11, ConnState.Connected, none, [0], []⟩
            else none,
          fun e => if e = 0 then some ⟨none, [1, 2]⟩ else none⟩
        [⟨10, ConnState.Connected, none, [0], []⟩,
         ⟨11, ConnState.Connected, none, [0], []⟩]
        [(10, 1)]) 10 = some 1 ∧
    ∀ k, SimpleCrtcMapper.crtc_for_connector
      (SimpleCrtcMapper.map
        ⟨[10, 11], [1, 2],
          fun h =>
            if h = 10 then some ⟨10, ConnState.Connected, none, [0], []⟩
            else if h = 11 then some ⟨11, ConnState.Connected, none, [0], []⟩
            else none,
          fun e => if e = 0 then some ⟨none, [1, 2]⟩ else none⟩
        [⟨10, ConnState.Connected, none, [0], []⟩,
         ⟨11, ConnState.Connected, none, [0], []⟩]
        [(10, 1)]) 11 = some k → k ≠ 1 :=
  map_preserves_existing_claim
    ⟨[10, 11], [1, 2],
      fun h =>
        if h = 10 then some ⟨10, ConnState.Connected, none, [0], []⟩
        else if h = 11 then some ⟨11, ConnState.Connected, none, [0], []⟩
        else none,
      fun e => if e = 0 then some ⟨none, [1, 2]⟩ else none⟩
    [⟨10, ConnState.Connected, none, [0], []⟩,
     ⟨11, ConnState.Connected, none, [0], []⟩]
    [(10, 1)] (by decide)
    ⟨10, ConnState.Connected, none, [0], []⟩
    ⟨11, ConnState.Connected, none, [0], []⟩ 1
    (by decide) rfl rfl (by decide) rfl rfl

/-! ## Idempotence of the map pass -/

theorem retainFold_id (drm : DrmDevice) :
    ∀ (l : List ConnectorInfo) (m : CrtcMap),
      (∀ c ∈ l, SimpleCrtcMapper.restored_for_connector drm m c = none) →
      SimpleCrtcMapper.retainFold drm l m = (m, l) := by
  intro l
  induction l with
  | nil => intro m _; rfl
  | cons conn rest ih =>
    intro m hall
    have h0 := hall conn (List.mem_cons_self _ _)
    simp only [SimpleCrtcMapper.retainFold, h0]
    rw [ih m (fun c hc => hall c (List.mem_cons_of_mem _ hc))]

theorem allocFold_id (drm : DrmDevice) :
    ∀ (l : List ConnectorInfo) (m : CrtcMap),
      (∀ c ∈ l, SimpleCrtcMapper.next_available_for_connector drm m c = none) →
      SimpleCrtcMapper.allocFold drm l m = m := by
  intro l
  induction l with
  | nil => intro m _; rfl
  | cons conn rest ih =>
    intro m hall
    have h0 := hall conn (List.mem_cons_self _ _)
    simp only [SimpleCrtcMapper.allocFold, h0]
    exact ih m (fun c hc => hall c (List.mem_cons_of_mem _ hc))

/-- Running the map pass twice with the same device and connector list (with
pairwise distinct handles) changes nothing the second time: released
handles stay released, restored or allocated claims persist, and a
connector that could not get an engine in the first pass still cannot. -/
theorem map_idem (drm : DrmDevice) (conns : List ConnectorInfo)
    (hnd : (conns.map ConnectorInfo.handle).Nodup) (m : CrtcMap) :
    SimpleCrtcMapper.map drm conns (SimpleCrtcMapper.map drm conns m)
      = SimpleCrtcMapper.map drm conns m := by
  obtain ⟨r1, r2, r3, r4, r5, r6, r7, r8, r9⟩ :=
    retainFold_spec drm
      (conns.filter (fun conn => conn.state == ConnState.Connected &&
        (lookupKey (SimpleCrtcMapper.releasePass conns m) conn.handle).isNone))
      (SimpleCrtcMapper.releasePass conns m)
      (needs_fresh conns m) (needs_nodup conns m hnd)
  obtain ⟨a1, a2, a3, a4, a5⟩ :=
    allocFold_spec drm
      (SimpleCrtcMapper.retainFold drm
        (conns.filter (fun conn => conn.state == ConnState.Connected &&
          (lookupKey (SimpleCrtcMapper.releasePass conns m) conn.handle).isNone))
        (SimpleCrtcMapper.releasePass conns m)).2
      (SimpleCrtcMapper.retainFold drm
        (conns.filter (fun conn => conn.state == ConnState.Connected &&
          (lookupKey (SimpleCrtcMapper.releasePass conns m) conn.handle).isNone))
        (SimpleCrtcMapper.releasePass conns m)).1
      r5 r9
  -- abbreviate the first-pass result
  generalize hS1 : SimpleCrtcMapper.map drm conns m = S1 at *
  have hSdef : SimpleCrtcMapper.allocFold drm
      (SimpleCrtcMapper.retainFold drm
        (conns.filter (fun conn => conn.state == ConnState.Connected &&
          (lookupKey (SimpleCrtcMapper.releasePass conns m) conn.handle).isNone))
        (SimpleCrtcMapper.releasePass conns m)).2
      (SimpleCrtcMapper.retainFold drm
        (conns.filter (fun conn => conn.state == ConnState.Connected &&
          (lookupKey (SimpleCrtcMapper.releasePass conns m) conn.handle).isNone))
        (SimpleCrtcMapper.releasePass conns m)).1 = S1 := hS1
  -- non-connected handles are absent from the first-pass result
  have hS1NC : ∀ c ∈ conns, c.state ≠ ConnState.Connected →
      lookupKey S1 c.handle = none := by
    intro c hc hs
    have hnotin : ∀ d ∈ conns.filter (fun conn =>
        conn.state == ConnState.Connected &&
          (lookupKey (SimpleCrtcMapper.releasePass conns m) conn.handle).isNone),
        d.handle ≠ c.handle := by
      intro d hd he
      rw [List.mem_filter, Bool.and_eq_true] at hd
      have hdc : d = c :=
        @List.inj_on_of_nodup_map _ _ ConnectorInfo.handle conns hnd d hd.1 c hc he
      rw [hdc] at hd
      exact hs (by simpa using hd.2.1)
    rw [← hSdef, a3 c.handle (fun d hd => hnotin d (r4 d hd)), r3 c.handle hnotin]
    exact releasePass_erases conns m c hc hs
  -- the second release phase is the identity
  have hrel2 : SimpleCrtcMapper.releasePass conns S1 = S1 :=
    releasePass_id conns S1 hS1NC
  -- every connector still needing an engine is stuck at the final state
  have hstuck : ∀ c ∈ conns, c.state = ConnState.Connected →
      lookupKey S1 c.handle = none →
      SimpleCrtcMapper.restored_for_connector drm S1 c = none ∧
      SimpleCrtcMapper.next_available_for_connector drm S1 c = none := by
    intro c hc hcs hnone
    have hm1c : lookupKey (SimpleCrtcMapper.releasePass conns m) c.handle = none := by
      cases hx : lookupKey (SimpleCrtcMapper.releasePass conns m) c.handle with
      | none => rfl
      | some v =>
        have := a1 c.handle v (r1 c.handle v hx)
        rw [hSdef, hnone] at this
        exact absurd this (by simp)
    have hcneeds : c ∈ conns.filter (fun conn =>
        conn.state == ConnState.Connected &&
          (lookupKey (SimpleCrtcMapper.releasePass conns m) conn.handle).isNone) := by
      rw [List.mem_filter, Bool.and_eq_true]
      exact ⟨hc, by simp [hcs], by simp [hm1c]⟩
    have hcpend : c ∈ (SimpleCrtcMapper.retainFold drm
        (conns.filter (fun conn => conn.state == ConnState.Connected &&
          (lookupKey (SimpleCrtcMapper.releasePass conns m) conn.handle).isNone))
        (SimpleCrtcMapper.releasePass conns m)).2 := by
      by_contra hcnot
      obtain ⟨k, hk⟩ := r7 c hcneeds hcnot
      have := a1 c.handle k hk
      rw [hSdef, hnone] at this
      exact absurd this (by simp)
    constructor
    · refine restored_none_mono drm _ S1 c ?_ (r6 c hcpend)
      intro x hx
      rw [← hSdef]
      exact a2 x hx
    · rw [← hSdef] at hnone ⊢
      exact a4 c hcpend hnone
  -- the second pass leaves the state unchanged
  rw [map_unfold, hrel2]
  have hstuck2 : ∀ c ∈ conns.filter (fun conn =>
      conn.state == ConnState.Connected && (lookupKey S1 conn.handle).isNone),
      SimpleCrtcMapper.restored_for_connector drm S1 c = none ∧
      SimpleCrtcMapper.next_available_for_connector drm S1 c = none := by
    intro c hc
    rw [List.mem_filter, Bool.and_eq_true] at hc
    exact hstuck c hc.1 (by simpa using hc.2.1)
      (Option.isNone_iff_eq_none.mp hc.2.2)
  rw [retainFold_id drm _ S1 (fun c hc => (hstuck2 c hc).1)]
  exact allocFold_id drm _ S1 (fun c hc => (hstuck2 c hc).2)

/-! ## Snapshot association-list lemmas -/

@[simp]
theorem lookupInfo_nil (h : Nat) : lookupInfo [] h = none := rfl

@[simp]
theorem lookupInfo_cons (k : Nat) (v : ConnectorInfo) (rest : Snapshot) (h : Nat) :
    lookupInfo ((k, v) :: rest) h = if k = h then some v else lookupInfo rest h := rfl

@[simp]
theorem insertInfo_nil (k : Nat) (v : ConnectorInfo) : insertInfo [] k v = [(k, v)] := rfl

@[simp]
theorem insertInfo_cons (k0 : Nat) (v0 : ConnectorInfo) (rest : Snapshot)
    (k : Nat) (v : ConnectorInfo) :
    insertInfo ((k0, v0) :: rest) k v =
      if k0 = k then (k, v) :: rest else (k0, v0) :: insertInfo rest k v := rfl

theorem lookupInfo_insertInfo_self (s : Snapshot) (k : Nat) (v : ConnectorInfo) :
    lookupInfo (insertInfo s k v) k = some v := by
  induction s with
  | nil => simp
  | cons p rest ih =>
    obtain ⟨k0, v0⟩ := p
    by_cases hk : k0 = k <;> simp [hk, ih]

theorem lookupInfo_insertInfo_ne (s : Snapshot) (k : Nat) (v : ConnectorInfo)
    (h : Nat) (hne : h ≠ k) :
    lookupInfo (insertInfo s k v) h = lookupInfo s h := by
  induction s with
  | nil => simp [Ne.symm hne]
  | cons p rest ih =>
    obtain ⟨k0, v0⟩ := p
    by_cases hk : k0 = k
    · subst hk
      simp [Ne.symm hne]
    · simp [hk, ih]

theorem insertInfo_of_lookup_eq (s : Snapshot) (k : Nat) (v : ConnectorInfo)
    (h : lookupInfo s k = some v) : insertInfo s k v = s := by
  induction s with
  | nil => simp at h
  | cons p rest ih =>
    obtain ⟨k0, v0⟩ := p
    rw [lookupInfo_cons] at h
    by_cases hk : k0 = k
    · rw [if_pos hk] at h
      cases h
      rw [insertInfo_cons, if_pos hk, hk]
    · rw [if_neg hk] at h
      rw [insertInfo_cons, if_neg hk, ih h]

theorem mem_insertInfo (s : Snapshot) (k : Nat) (v : ConnectorInfo)
    (p : Nat × ConnectorInfo) (h : p ∈ insertInfo s k v) : p ∈ s ∨ p = (k, v) := by
  induction s with
  | nil => exact Or.inr (by simpa using h)
  | cons q rest ih =>
    obtain ⟨k0, v0⟩ := q
    by_cases hk : k0 = k
    · rw [insertInfo_cons, if_pos hk] at h
      rcases List.mem_cons.mp h with rfl | hp
      · exact Or.inr rfl
      · exact Or.inl (List.mem_cons_of_mem _ hp)
    · rw [insertInfo_cons, if_neg hk] at h
      rcases List.mem_cons.mp h with rfl | hp
      · exact Or.inl (List.mem_cons_self _ _)
      · rcases ih hp with hm | he
        · exact Or.inl (List.mem_cons_of_mem _ hm)
        · exact Or.inr he

theorem insertInfo_keys_nodup (s : Snapshot) (k : Nat) (v : ConnectorInfo)
    (hnd : (s.map Prod.fst).Nodup) : ((insertInfo s k v).map Prod.fst).Nodup := by
  induction s with
  | nil => simp
  | cons p rest ih =>
    obtain ⟨k0, v0⟩ := p
    rw [List.map_cons, List.nodup_cons] at hnd
    obtain ⟨hnotin, hndrest⟩ := hnd
    by_cases hk : k0 = k
    · rw [insertInfo_cons, if_pos hk, List.map_cons, List.nodup_cons]
      exact ⟨hk ▸ hnotin, hndrest⟩
    · rw [insertInfo_cons, if_neg hk, List.map_cons, List.nodup_cons]
      refine ⟨?_, ih hndrest⟩
      intro hmem
      rw [List.mem_map] at hmem
      obtain ⟨q, hq, hq0⟩ := hmem
      rcases mem_insertInfo rest k v q hq with hm | rfl
      · exact hnotin (hq0 ▸ List.mem_map_of_mem Prod.fst hm)
      · simp only at hq0
        exact hk hq0.symm

/-! ## Scan-step lemmas -/

theorem scanStep_snapshot (acc : Snapshot × ConnectorScanResult × AnomalyLog)
    (conn : ConnectorInfo) :
    (scanStep acc conn).1 = insertInfo acc.1 conn.handle conn := by
  simp only [scanStep]
  split
  · split <;> rfl
  · split <;> rfl

theorem scanStep_log (acc : Snapshot × ConnectorScanResult × AnomalyLog)
    (conn : ConnectorInfo) :
    (scanStep acc conn).2.2 = acc.2.2 := by
  simp only [scanStep]
  split
  · split <;> rfl
  · split <;> rfl

theorem scanStep_events (acc : Snapshot × ConnectorScanResult × AnomalyLog)
    (conn : ConnectorInfo) :
    ((scanStep acc conn).2.1.connected = acc.2.1.connected ∨
      (scanStep acc conn).2.1.connected = acc.2.1.connected ++ [conn]) ∧
    ((scanStep acc conn).2.1.disconnected = acc.2.1.disconnected ∨
      (scanStep acc conn).2.1.disconnected = acc.2.1.disconnected ++ [conn]) := by
  simp only [scanStep]
  split
  · split <;> simp
  · split <;> simp

theorem scanStep_self (acc : Snapshot × ConnectorScanResult × AnomalyLog)
    (conn : ConnectorInfo)
    (hold : lookupInfo acc.1 conn.handle = some conn) :
    scanStep acc conn = (insertInfo acc.1 conn.handle conn, acc.2) := by
  simp only [scanStep, hold]
  cases conn.state <;> rfl

theorem scanStep_classify (acc : Snapshot × ConnectorScanResult × AnomalyLog)
    (curr old : ConnectorInfo)
    (hold : lookupInfo acc.1 curr.handle = some old) :
    (scanStep acc curr).2.1.connected =
      (if (old.state = ConnState.Disconnected ∨ old.state = ConnState.Unknown) ∧
          curr.state = ConnState.Connected
       then acc.2.1.connected ++ [curr] else acc.2.1.connected) ∧
    (scanStep acc curr).2.1.disconnected =
      (if old.state = ConnState.Connected ∧ curr.state = ConnState.Disconnected
       then acc.2.1.disconnected ++ [curr] else acc.2.1.disconnected) := by
  simp only [scanStep, hold]
  cases hos : old.state <;> cases hcs : curr.state <;> simp

/-! ## Scan-fold lemmas -/

theorem scanFold_untouched :
    ∀ (infos : List ConnectorInfo) (acc : Snapshot × ConnectorScanResult × AnomalyLog)
      (h : Nat), (∀ c ∈ infos, c.handle ≠ h) →
      lookupInfo (infos.foldl scanStep acc).1 h = lookupInfo acc.1 h ∧
      (infos.foldl scanStep acc).2.1.connected.filter (fun c => c.handle == h) =
        acc.2.1.connected.filter (fun c => c.handle == h) ∧
      (infos.foldl scanStep acc).2.1.disconnected.filter (fun c => c.handle == h) =
        acc.2.1.disconnected.filter (fun c => c.handle == h) ∧
      (infos.foldl scanStep acc).2.2 = acc.2.2 := by
  intro infos
  induction infos with
  | nil => intro acc h _; exact ⟨rfl, rfl, rfl, rfl⟩
  | cons conn rest ih =>
    intro acc h hall
    have hne : conn.handle ≠ h := hall conn (List.mem_cons_self _ _)
    rw [List.foldl_cons]
    obtain ⟨q1, q2, q3, q4⟩ :=
      ih (scanStep acc conn) h (fun c hc => hall c (List.mem_cons_of_mem _ hc))
    refine ⟨?_, ?_, ?_, ?_⟩
    · rw [q1, scanStep_snapshot, lookupInfo_insertInfo_ne acc.1 conn.handle conn h
        (Ne.symm hne)]
    · rw [q2]
      rcases (scanStep_events acc conn).1 with he | he
      · rw [he]
      · rw [he, List.filter_append]
        simp [hne]
    · rw [q3]
      rcases (scanStep_events acc conn).2 with he | he
      · rw [he]
      · rw [he, List.filter_append]
        simp [hne]
    · rw [q4, scanStep_log]

theorem scanFold_lookup_processed :
    ∀ (infos : List ConnectorInfo) (acc : Snapshot × ConnectorScanResult × AnomalyLog)
      (h : Nat) (i : ConnectorInfo),
      (∀ j ∈ infos, j.handle = h → j = i) →
      (lookupInfo acc.1 h = some i ∨ ∃ j ∈ infos, j.handle = h) →
      lookupInfo (infos.foldl scanStep acc).1 h = some i := by
  intro infos
  induction infos with
  | nil =>
    intro acc h i _ hdisj
    rcases hdisj with hl | ⟨j, hj, -⟩
    · exact hl
    · exact absurd hj (by simp)
  | cons conn rest ih =>
    intro acc h i hcond hdisj
    rw [List.foldl_cons]
    by_cases hch : conn.handle = h
    · have hci : conn = i := hcond conn (List.mem_cons_self _ _) hch
      refine ih (scanStep acc conn) h i
        (fun j hj => hcond j (List.mem_cons_of_mem _ hj)) (Or.inl ?_)
      rw [scanStep_snapshot, ← hch, hci, lookupInfo_insertInfo_self]
    · refine ih (scanStep acc conn) h i
        (fun j hj => hcond j (List.mem_cons_of_mem _ hj)) ?_
      rcases hdisj with hl | ⟨j, hj, hjh⟩
      · left
        rw [scanStep_snapshot, lookupInfo_insertInfo_ne acc.1 conn.handle conn h
          (Ne.symm hch)]
        exact hl
      · rcases List.mem_cons.mp hj with rfl | hjrest
        · exact absurd hjh hch
        · exact Or.inr ⟨j, hjrest, hjh⟩

theorem scanFold_stable :
    ∀ (infos : List ConnectorInfo) (acc : Snapshot × ConnectorScanResult × AnomalyLog),
      (∀ j ∈ infos, lookupInfo acc.1 j.handle = some j) →
      infos.foldl scanStep acc = acc := by
  intro infos
  induction infos with
  | nil => intro acc _; rfl
  | cons conn rest ih =>
    intro acc hall
    rw [List.foldl_cons, scanStep_self acc conn (hall conn (List.mem_cons_self _ _)),
      insertInfo_of_lookup_eq acc.1 conn.handle conn (hall conn (List.mem_cons_self _ _))]
    exact ih acc (fun j hj => hall j (List.mem_cons_of_mem _ hj))

/-! ## Scan-level lemmas -/

theorem scan_snapshot_agrees (drm : DrmDevice) (hwf : drm.WF) (snap : Snapshot) :
    ∀ h i, h ∈ drm.connectors → drm.getConnector h = some i →
      lookupInfo (ConnectorScanner.scan drm snap).1 h = some i := by
  intro h i hmem hget
  unfold ConnectorScanner.scan
  refine scanFold_lookup_processed _ _ h i ?_ ?_
  · intro j hj hjh
    obtain ⟨h1, hmem1, hget1⟩ := List.mem_filterMap.mp hj
    have h1h : h1 = h := (hwf h1 j hget1).symm.trans hjh
    rw [h1h] at hget1
    cases hget1.symm.trans hget
    rfl
  · right
    exact ⟨i, List.mem_filterMap.mpr ⟨h, hmem, hget⟩, hwf h i hget⟩

theorem scan_stable (drm : DrmDevice) (hwf : drm.WF) (snap : Snapshot)
    (hagree : ∀ h i, h ∈ drm.connectors → drm.getConnector h = some i →
      lookupInfo snap h = some i) :
    ConnectorScanner.scan drm snap = (snap, ⟨[], []⟩, []) := by
  unfold ConnectorScanner.scan
  refine scanFold_stable _ _ ?_
  intro j hj
  obtain ⟨h1, hmem1, hget1⟩ := List.mem_filterMap.mp hj
  rw [hwf h1 j hget1]
  exact hagree h1 j hmem1 hget1

theorem scanFold_keys_nodup :
    ∀ (infos : List ConnectorInfo) (acc : Snapshot × ConnectorScanResult × AnomalyLog),
      (acc.1.map Prod.fst).Nodup →
      ((infos.foldl scanStep acc).1.map Prod.fst).Nodup := by
  intro infos
  induction infos with
  | nil => intro acc hn; exact hn
  | cons conn rest ih =>
    intro acc hn
    rw [List.foldl_cons]
    refine ih _ ?_
    rw [scanStep_snapshot]
    exact insertInfo_keys_nodup acc.1 conn.handle conn hn

theorem scanFold_handles :
    ∀ (infos : List ConnectorInfo) (acc : Snapshot × ConnectorScanResult × AnomalyLog),
      (∀ p ∈ acc.1, (p.2 : ConnectorInfo).handle = p.1) →
      ∀ p ∈ (infos.foldl scanStep acc).1, (p.2 : ConnectorInfo).handle = p.1 := by
  intro infos
  induction infos with
  | nil => intro acc hc; exact hc
  | cons conn rest ih =>
    intro acc hc
    rw [List.foldl_cons]
    refine ih _ ?_
    intro p hp
    rw [scanStep_snapshot] at hp
    rcases mem_insertInfo acc.1 conn.handle conn p hp with hm | rfl
    · exact hc p hm
    · rfl

theorem snapshot_values_handles_nodup (s : Snapshot)
    (hkeys : (s.map Prod.fst).Nodup)
    (hhandles : ∀ p ∈ s, (p.2 : ConnectorInfo).handle = p.1) :
    ((s.map Prod.snd).map ConnectorInfo.handle).Nodup := by
  rw [List.map_map]
  have heq : s.map (ConnectorInfo.handle ∘ Prod.snd) = s.map Prod.fst :=
    List.map_eq_map_iff.mpr (fun p hp => hhandles p hp)
  rw [heq]
  exact hkeys

/-! ## C3: scanning twice with unchanged hardware is a no-op -/

/-- C3: with the hardware reporting the same connector handles and states
both times, the second `scan_connectors` run produces empty connected and
disconnected event lists and leaves the connector-to-timing-engine
assignment unchanged.  Hypotheses: the device reports consistent handles
(`DrmDevice.WF`) and the starting snapshot is a well-formed map (unique
keys, each info stored under its own handle) — both automatic for states
the scanner itself builds. -/
theorem scan_connectors_idempotent (drm : DrmDevice) (hwf : drm.WF)
    (st : DrmScannerState)
    (hkeys : (st.snapshot.map Prod.fst).Nodup)
    (hhandles : ∀ p ∈ st.snapshot, (p.2 : ConnectorInfo).handle = p.1) :
    (DrmScanner.scan_connectors drm
      (DrmScanner.scan_connectors drm st).1).2.1.connected = [] ∧
    (DrmScanner.scan_connectors drm
      (DrmScanner.scan_connectors drm st).1).2.1.disconnected = [] ∧
    (DrmScanner.scan_connectors drm
      (DrmScanner.scan_connectors drm st).1).1.crtcs =
      (DrmScanner.scan_connectors drm st).1.crtcs := by
  have hsnap1 : (DrmScanner.scan_connectors drm st).1.snapshot
      = (ConnectorScanner.scan drm st.snapshot).1 := rfl
  have hcrtcs1 : (DrmScanner.scan_connectors drm st).1.crtcs
      = SimpleCrtcMapper.map drm
          ((ConnectorScanner.scan drm st.snapshot).1.map Prod.snd) st.crtcs := rfl
  have hscan2 : ConnectorScanner.scan drm (ConnectorScanner.scan drm st.snapshot).1
      = ((ConnectorScanner.scan drm st.snapshot).1, ⟨[], []⟩, []) :=
    scan_stable drm hwf _ (scan_snapshot_agrees drm hwf st.snapshot)
  have hkeys1 : ((ConnectorScanner.scan drm st.snapshot).1.map Prod.fst).Nodup := by
    unfold ConnectorScanner.scan
    exact scanFold_keys_nodup _ _ hkeys
  have hhandles1 : ∀ p ∈ (ConnectorScanner.scan drm st.snapshot).1,
      (p.2 : ConnectorInfo).handle = p.1 := by
    unfold ConnectorScanner.scan
    exact scanFold_handles _ _ hhandles
  have hnd1 : (((ConnectorScanner.scan drm st.snapshot).1.map Prod.snd).map
      ConnectorInfo.handle).Nodup :=
    snapshot_values_handles_nodup _ hkeys1 hhandles1
  refine ⟨?_, ?_, ?_⟩
  · simp only [DrmScanner.scan_connectors, hsnap1, hscan2, List.map_nil]
  · simp only [DrmScanner.scan_connectors, hsnap1, hscan2, List.map_nil]
  · simp only [DrmScanner.scan_connectors, hsnap1, hscan2, hcrtcs1]
    exact map_idem drm _ hnd1 st.crtcs

/-- Closed witness for the C3 theorem: one device with a single connected
connector; the second scan reports no events and the same assignment. -/
theorem scan_connectors_idempotent_witness :
    (DrmScanner.scan_connectors
      ⟨[1], [5],
        fun h => if h = 1 then some ⟨1, ConnState.Connected, none, [0], []⟩ else none,
        fun e => if e = 0 then some ⟨none, [5]⟩ else none⟩
      (DrmScanner.scan_connectors
        ⟨[1], [5],
          fun h => if h = 1 then some ⟨1, ConnState.Connected, none, [0], []⟩ else none,
          fun e => if e = 0 then some ⟨none, [5]⟩ else none⟩
        ⟨[], []⟩).1).2.1.connected = [] ∧
    (DrmScanner.scan_connectors
      ⟨[1], [5],
        fun h => if h = 1 then some ⟨1, ConnState.Connected, none, [0], []⟩ else none,
        fun e => if e = 0 then some ⟨none, [5]⟩ else none⟩
      (DrmScanner.scan_connectors
        ⟨[1], [5],
          fun h => if h = 1 then some ⟨1, ConnState.Connected, none, [0], []⟩ else none,
          fun e => if e = 0 then some ⟨none, [5]⟩ else none⟩
        ⟨[], []⟩).1).2.1.disconnected = [] ∧
    (DrmScanner.scan_connectors
      ⟨[1], [5],
        fun h => if h = 1 then some ⟨1, ConnState.Connected, none, [0], []⟩ else none,
        fun e => if e = 0 then some ⟨none, [5]⟩ else none⟩
      (DrmScanner.scan_connectors
        ⟨[1], [5],
          fun h => if h = 1 then some ⟨1, ConnState.Connected, none, [0], []⟩ else none,
          fun e => if e = 0 then some ⟨none, [5]⟩ else none⟩
        ⟨[], []⟩).1).1.crtcs =
      (DrmScanner.scan_connectors
        ⟨[1], [5],
          fun h => if h = 1 then some ⟨1, ConnState.Connected, none, [0], []⟩ else none,
          fun e => if e = 0 then some ⟨none, [5]⟩ else none⟩
        ⟨[], []⟩).1.crtcs :=
  scan_connectors_idempotent
    ⟨[1], [5],
      fun h => if h = 1 then some ⟨1, ConnState.Connected, none, [0], []⟩ else none,
      fun e => if e = 0 then some ⟨none, [5]⟩ else none⟩
    (by
      intro h i hi
      dsimp only at hi
      by_cases hh : h = 1
      · subst hh
        rw [if_pos rfl] at hi
        cases hi
        rfl
      · rw [if_neg hh] at hi
        exact absurd hi (by simp))
    ⟨[], []⟩ (by simp) (by simp)

/-! ## C2: transition classification of the Connector Scanner -/

/-- C2 counterexample: an anomalous transition is silently dropped, not
logged.  The previous snapshot holds connector 1 as Connected and the
device now reports it Unknown — a pairing the claim says is "logged as an
anomaly rather than being silently dropped".  The scan emits no event
(correct) but also produces no anomaly report: the source's match arms for
these pairings contain no statement at all (no tracing call), so the
embedded anomaly channel stays empty. -/
theorem scan_anomaly_not_logged :
    (ConnectorScanner.scan
      ⟨[1], [],
        fun h => if h = 1 then some ⟨1, ConnState.Unknown, none, [], []⟩ else none,
        fun _ => none⟩
      [(1, ⟨1, ConnState.Connected, none, [], []⟩)]).2.1
      = ⟨[], []⟩ ∧
    (ConnectorScanner.scan
      ⟨[1], [],
        fun h => if h = 1 then some ⟨1, ConnState.Unknown, none, [], []⟩ else none,
        fun _ => none⟩
      [(1, ⟨1, ConnState.Connected, none, [], []⟩)]).2.2 = [] := by
  decide

/-- C2 (amended): for a connector enumerated exactly once (at handle h,
splitting the enumeration as pre ++ curr :: post with no other h-handled
info) and present in the previous snapshot as old: a
(Disconnected or Unknown) to Connected transition emits exactly one connect
event and no disconnect event; a Connected to Disconnected transition
emits exactly one disconnect event and no connect event; every other state
pairing emits no event and is silently ignored — the scan performs no
anomaly logging at all (its anomaly channel is always empty). -/
theorem scan_transition_classification (drm : DrmDevice)
    (snap : Snapshot) (h : Nat) (old curr : ConnectorInfo)
    (pre post : List ConnectorInfo)
    (hsplit : drm.connectors.filterMap drm.getConnector = pre ++ curr :: post)
    (hpre : ∀ c ∈ pre, c.handle ≠ h) (hpost : ∀ c ∈ post, c.handle ≠ h)
    (hch : curr.handle = h)
    (hold : lookupInfo snap h = some old) :
    (((old.state = ConnState.Disconnected ∨ old.state = ConnState.Unknown) ∧
        curr.state = ConnState.Connected) →
      (ConnectorScanner.scan drm snap).2.1.connected.filter
          (fun c => c.handle == h) = [curr] ∧
      (ConnectorScanner.scan drm snap).2.1.disconnected.filter
          (fun c => c.handle == h) = []) ∧
    ((old.state = ConnState.Connected ∧ curr.state = ConnState.Disconnected) →
      (ConnectorScanner.scan drm snap).2.1.connected.filter
          (fun c => c.handle == h) = [] ∧
      (ConnectorScanner.scan drm snap).2.1.disconnected.filter
          (fun c => c.handle == h) = [curr]) ∧
    (¬((old.state = ConnState.Disconnected ∨ old.state = ConnState.Unknown) ∧
        curr.state = ConnState.Connected) →
     ¬(old.state = ConnState.Connected ∧ curr.state = ConnState.Disconnected) →
      (ConnectorScanner.scan drm snap).2.1.connected.filter
          (fun c => c.handle == h) = [] ∧
      (ConnectorScanner.scan drm snap).2.1.disconnected.filter
          (fun c => c.handle == h) = []) ∧
    (ConnectorScanner.scan drm snap).2.2 = [] := by
  unfold ConnectorScanner.scan
  rw [hsplit, List.foldl_append, List.foldl_cons]
  obtain ⟨u1, u2, u3, u4⟩ :=
    scanFold_untouched pre (snap, ⟨[], []⟩, []) h hpre
  have hold1 : lookupInfo (pre.foldl scanStep (snap, ⟨[], []⟩, [])).1 curr.handle
      = some old := by
    rw [hch, u1]
    exact hold
  obtain ⟨hc2, hd2⟩ :=
    scanStep_classify (pre.foldl scanStep (snap, ⟨[], []⟩, [])) curr old hold1
  obtain ⟨v1, v2, v3, v4⟩ :=
    scanFold_untouched post
      (scanStep (pre.foldl scanStep (snap, ⟨[], []⟩, [])) curr) h hpost
  have hctrue : (curr.handle == h) = true := by simp [hch]
  refine ⟨?_, ?_, ?_, ?_⟩
  · rintro ⟨holds, hcurr⟩
    constructor
    · rw [v2, hc2, if_pos ⟨holds, hcurr⟩, List.filter_append, u2]
      simp [hctrue]
    · rw [v3, hd2, if_neg (fun hcd => by
        rcases holds with h2 | h2 <;> exact absurd (hcd.1.symm.trans h2) (by simp)), u3]
      rfl
  · rintro ⟨ho, hc⟩
    constructor
    · rw [v2, hc2, if_neg (fun hcc => absurd (hc.symm.trans hcc.2) (by simp)), u2]
      rfl
    · rw [v3, hd2, if_pos ⟨ho, hc⟩, List.filter_append, u3]
      simp [hctrue]
  · intro hn1 hn2
    constructor
    · rw [v2, hc2, if_neg hn1, u2]
      rfl
    · rw [v3, hd2, if_neg hn2, u3]
      rfl
  · rw [v4, scanStep_log, u4]

/-- Closed witness for the C2 amended theorem: a Disconnected to Connected
transition on connector 1 emits exactly one connect event, no disconnect
event, and no anomaly report. -/
theorem scan_transition_classification_witness :
    ((ConnectorScanner.scan
      ⟨[1], [],
        fun hh => if hh = 1 then some ⟨1, ConnState.Connected, none, [], []⟩ else none,
        fun _ => none⟩
      [(1, ⟨1, ConnState.Disconnected, none, [], []⟩)]).2.1.connected.filter
        (fun c => c.handle == 1) = [⟨1, ConnState.Connected, none, [], []⟩] ∧
    (ConnectorScanner.scan
      ⟨[1], [],
        fun hh => if hh = 1 then some ⟨1, ConnState.Connected, none, [], []⟩ else none,
        fun _ => none⟩
      [(1, ⟨1, ConnState.Disconnected, none, [], []⟩)]).2.1.disconnected.filter
        (fun c => c.handle == 1) = []) ∧
    (ConnectorScanner.scan
      ⟨[1], [],
        fun hh => if hh = 1 then some ⟨1, ConnState.Connected, none, [], []⟩ else none,
        fun _ => none⟩
      [(1, ⟨1, ConnState.Disconnected, none, [], []⟩)]).2.2 = [] :=
  ⟨(scan_transition_classification
      ⟨[1], [],
        fun hh => if hh = 1 then some ⟨1, ConnState.Connected, none, [], []⟩ else none,
        fun _ => none⟩
      [(1, ⟨1, ConnState.Disconnected, none, [], []⟩)] 1
      ⟨1, ConnState.Disconnected, none, [], []⟩
      ⟨1, ConnState.Connected, none, [], []⟩ [] []
      (by decide) (by simp) (by simp) rfl rfl).1 ⟨Or.inl rfl, rfl⟩,
    (scan_transition_classification
      ⟨[1], [],
        fun hh => if hh = 1 then some ⟨1, ConnState.Connected, none, [], []⟩ else none,
        fun _ => none⟩
      [(1, ⟨1, ConnState.Disconnected, none, [], []⟩)] 1
      ⟨1, ConnState.Disconnected, none, [], []⟩
      ⟨1, ConnState.Connected, none, [], []⟩ [] []
      (by decide) (by simp) (by simp) rfl rfl).2.2.2⟩

/-! ## C5: the scanout tranche is covered by the render-capable union -/

/-- C5: for every computed buffer-format feedback, every format of the
Scanout-tagged tranche of the scanout feedback belongs to the primary GPU's
import-capable formats or to the render GPU's import-capable formats, so
every format offered for direct display has a composition fallback. -/
theorem scanout_tranche_subset_render_capable
    (primary_gpu render_node surface_dev : Nat)
    (primary_formats render_formats plane_info_formats overlay_formats : List Format)
    (t : FeedbackTranche)
    (ht : t ∈ (get_surface_dmabuf_feedback primary_gpu render_node surface_dev
      primary_formats render_formats plane_info_formats overlay_formats).scanout_feedback.tranches)
    (hs : t.scanout = true)
    (f : Format) (hf : f ∈ t.formats) :
    f ∈ primary_formats ∨ f ∈ render_formats := by
  simp only [get_surface_dmabuf_feedback, List.mem_cons, List.not_mem_nil, or_false]
    at ht
  rcases ht with rfl | rfl | rfl
  · simp only [List.mem_filter] at hf
    exact List.mem_append.mp (List.mem_of_elem_eq_true hf.2)
  · exact absurd hs (by simp)
  · exact absurd hs (by simp)

/-- Closed witness for the C5 theorem at a concrete feedback computation. -/
theorem scanout_tranche_subset_render_capable_witness :
    (1, 0) ∈ ([((1 : Nat), (0 : Nat))] : List Format) ∨ (1, 0) ∈ ([] : List Format) :=
  scanout_tranche_subset_render_capable 0 0 0 [(1, 0)] [] [(1, 0), (2, 0)] []
    ⟨0, true, [(1, 0)]⟩ (by decide) rfl (1, 0) (by decide)

/-! ## C6: the repaint delay after a frame completion -/

/-- Case analysis of `frame_finish_action` with a current mode: it either
arms the timer with the gpu-dependent delay, stops, or panics. -/
theorem frame_finish_action_cases (p r refresh : Nat) (res : Except SwapError Unit) :
    frame_finish_action p r (some refresh) res =
      (if p ≠ r then FrameAction.arm 0
       else FrameAction.arm (frame_duration refresh * (3 / 5))) ∨
    frame_finish_action p r (some refresh) res = FrameAction.stop ∨
    frame_finish_action p r (some refresh) res = FrameAction.panicProcess := by
  rcases res with e | u
  · rcases e with _ | cause | cause
    · left; rfl
    · rcases cause with _ | k
      · right; left; rfl
      · cases k
        · right; left; rfl
        · left; rfl
        · right; left; rfl
        · right; left; rfl
        · right; left; rfl
    · right; right; rfl
  · left; rfl

/-- C6: whenever `frame_finish` decides to reschedule (arms a repaint timer),
the delay is 60% of one refresh interval when the surface's render GPU
equals the primary GPU, and exactly zero when it differs.  Delays are in
seconds; at a 60 Hz mode (refresh = 60000 mHz) the same-GPU delay is
1/100 s = 10 ms. -/
theorem frame_finish_repaint_delay (primary_gpu render_node refresh : Nat)
    (submit_result : Except SwapError Unit) (d : ℚ)
    (h : frame_finish_action primary_gpu render_node (some refresh) submit_result
      = FrameAction.arm d) :
    (primary_gpu = render_node → d = frame_duration refresh * (3 / 5)) ∧
    (primary_gpu ≠ render_node → d = 0) := by
  rcases frame_finish_action_cases primary_gpu render_node refresh submit_result
    with hc | hc | hc
  · rw [hc] at h
    by_cases hne : primary_gpu = render_node
    · rw [if_neg (by simpa using hne)] at h
      exact ⟨fun _ => (FrameAction.arm.injEq _ _).mp h.symm, fun hx => absurd hne hx⟩
    · rw [if_pos hne] at h
      exact ⟨fun hx => absurd hx hne, fun _ => (FrameAction.arm.injEq _ _).mp h.symm⟩
  · rw [hc] at h; exact absurd h (by simp)
  · rw [hc] at h; exact absurd h (by simp)

/-- Closed witness for the C6 theorem: a same-GPU surface at 60 Hz gets a
10 ms delay, a cross-GPU surface gets a zero delay. -/
theorem frame_finish_repaint_delay_witness :
    (((0 : Nat) = 0 → (1 / 100 : ℚ) = frame_duration 60000 * (3 / 5)) ∧
      ((0 : Nat) ≠ 0 → (1 / 100 : ℚ) = 0)) ∧
    (((0 : Nat) = 1 → (0 : ℚ) = frame_duration 60000 * (3 / 5)) ∧
      ((0 : Nat) ≠ 1 → (0 : ℚ) = 0)) :=
  ⟨frame_finish_repaint_delay 0 0 60000 (Except.ok ()) (1 / 100)
      (by norm_num [frame_finish_action, frame_duration]),
    frame_finish_repaint_delay 0 1 60000 (Except.ok ()) 0
      (by norm_num [frame_finish_action])⟩

/-! ## C7: which submission outcomes stop the repaint cycle -/

/-- C7 counterexample: a permission-denied failure does NOT stop scheduling.
The claim states that a permission-denied failure consistent with a session
switch arms no new repaint timer; in the source the `matches!` over the
`TemporaryFailure` cause evaluates to `true` exactly for the
permission-denied access error, so `schedule_render` is true and a repaint
timer IS armed (here with the same-GPU 10 ms delay at 60 Hz). -/
theorem frame_finish_perm_denied_schedules :
    frame_finish_action 0 0 (some 60000)
        (Except.error (SwapError.TemporaryFailure
          (some DrmErrorKind.AccessPermissionDenied)))
      = FrameAction.arm (1 / 100) ∧
    frame_finish_action 0 0 (some 60000)
        (Except.error (SwapError.TemporaryFailure
          (some DrmErrorKind.AccessPermissionDenied)))
      ≠ FrameAction.stop := by
  constructor
  · norm_num [frame_finish_action, frame_duration]
  · intro h
    rw [(by norm_num [frame_finish_action, frame_duration] :
      frame_finish_action 0 0 (some 60000)
        (Except.error (SwapError.TemporaryFailure
          (some DrmErrorKind.AccessPermissionDenied)))
        = FrameAction.arm (1 / 100))] at h
    exact absurd h (by simp)

/-- C7 (amended): with a current mode present, `frame_finish` arms no new
repaint timer exactly when the submission reports a temporary failure whose
cause is not a permission-denied access error — in particular on
device-inactive, whose recovery is driven by the external session-resume
handler; a permission-denied failure and any acknowledged submission
(success or already-swapped) continue the cycle, and an unrecognized
context loss panics. -/
theorem frame_finish_stop_policy (p r refresh : Nat) (res : Except SwapError Unit) :
    (frame_finish_action p r (some refresh) res = FrameAction.stop ↔
      ∃ cause, res = Except.error (SwapError.TemporaryFailure cause) ∧
        cause ≠ some DrmErrorKind.AccessPermissionDenied) ∧
    (frame_finish_action p r (some refresh) res = FrameAction.panicProcess ↔
      ∃ cause, res = Except.error (SwapError.ContextLost cause)) := by
  rcases res with e | u
  · rcases e with _ | cause | cause
    · by_cases hx : p = r <;> simp [frame_finish_action, hx]
    · rcases cause with _ | k
      · simp [frame_finish_action]
      · cases k <;> by_cases hx : p = r <;> simp [frame_finish_action, hx]
    · simp [frame_finish_action]
  · cases u
    by_cases hx : p = r <;> simp [frame_finish_action, hx]

/-! ## C8: the scope of a fatal render failure -/

/-- C8 counterexample: a fatal render failure (context loss whose cause is
not the recognized TestFailed) does not merely halt the failing device: the
handler panics, which unwinds out of the shared single-threaded event loop
and stops frame scheduling for every registered device.  With devices 0 and
1 and device 0 failing, device 1's scheduling does not survive, refuting
the claim that every other device is unaffected. -/
theorem render_fatal_not_device_scoped :
    render_surface_reschedule
        (Except.error (SwapError.ContextLost (some DrmErrorKind.Other)))
      = RenderAction.panicProcess ∧
    surviving_devices [0, 1] 0
        (render_surface_reschedule
          (Except.error (SwapError.ContextLost (some DrmErrorKind.Other)))) = [] ∧
    ¬ (1 ∈ surviving_devices [0, 1] 0
        (render_surface_reschedule
          (Except.error (SwapError.ContextLost (some DrmErrorKind.Other))))) := by
  refine ⟨rfl, rfl, ?_⟩
  simp [surviving_devices, render_surface_reschedule]

/-- C8 (amended): a fatal render failure — a context loss whose cause is not
the recognized recoverable TestFailed — panics the process, halting frame
scheduling for every registered device, not only the one that produced it;
only the TestFailed cause is handled device-locally (state reset, then
reschedule). -/
theorem render_fatal_halts_all_devices (cause : Option DrmErrorKind)
    (h : cause ≠ some DrmErrorKind.TestFailed) :
    render_surface_reschedule (Except.error (SwapError.ContextLost cause))
      = RenderAction.panicProcess ∧
    (∀ (devices : List Nat) (failing : Nat),
      surviving_devices devices failing
        (render_surface_reschedule (Except.error (SwapError.ContextLost cause)))
        = []) ∧
    render_surface_reschedule
        (Except.error (SwapError.ContextLost (some DrmErrorKind.TestFailed)))
      = RenderAction.resetAndReschedule := by
  have hp : render_surface_reschedule (Except.error (SwapError.ContextLost cause))
      = RenderAction.panicProcess := by
    rcases cause with _ | k
    · rfl
    · cases k
      · rfl
      · rfl
      · rfl
      · exact absurd rfl h
      · rfl
  exact ⟨hp, fun devices failing => by rw [hp]; rfl, rfl⟩

/-- Closed witness for the C8 amended theorem at a concrete fatal cause. -/
theorem render_fatal_halts_all_devices_witness :
    render_surface_reschedule (Except.error (SwapError.ContextLost none))
      = RenderAction.panicProcess ∧
    (∀ (devices : List Nat) (failing : Nat),
      surviving_devices devices failing
        (render_surface_reschedule (Except.error (SwapError.ContextLost none)))
        = []) ∧
    render_surface_reschedule
        (Except.error (SwapError.ContextLost (some DrmErrorKind.TestFailed)))
      = RenderAction.resetAndReschedule :=
  render_fatal_halts_all_devices none (by simp)

/-! ## C9: lease-request rejection policy -/

/-- The loop of `lease_request` grants the request iff every requested
connector individually passes its checks; no check depends on the builder
accumulated so far. -/
theorem lease_request_go_ok_iff (b : LeaseBackend) (request : List Nat) :
    ∀ builder : LeaseBuilderM,
      ((∃ bld, lease_request_go b request builder = Except.ok bld) ↔
        ∀ c ∈ request, conn_grantable b c = true) := by
  induction request with
  | nil => intro builder; simp [lease_request_go]
  | cons conn rest ih =>
    intro builder
    simp only [lease_request_go]
    cases hfind : b.non_desktop_connectors.find? (fun p => p.1 = conn) with
    | none => simp [conn_grantable, hfind]
    | some entry =>
      cases hpl : b.planes entry.2 with
      | none => simp [conn_grantable, hfind, hpl]
      | some planeSet =>
        cases hprim : planeSet.primary.find? (fun plane => b.claim_plane plane entry.2) with
        | none => simp [conn_grantable, hfind, hpl, hprim]
        | some primary_plane => simp [conn_grantable, hfind, hpl, hprim, ih]

/-- An unregistered connector is never grantable. -/
theorem conn_grantable_of_unregistered (b : LeaseBackend) (conn : Nat)
    (h : registered_non_desktop b conn = false) : conn_grantable b conn = false := by
  unfold registered_non_desktop at h
  unfold conn_grantable
  cases hfind : b.non_desktop_connectors.find? (fun p => p.1 = conn) with
  | none => rfl
  | some entry => rw [hfind] at h; simp at h

/-- C9: a lease request naming any connector that is not registered
non-desktop on the device (in particular one driving an active composited
output) is rejected whole, and no lease builder is produced; a request
whose connectors are all registered is still rejected whole if any
connector's mandatory primary-plane claim fails; if every connector is
registered and every primary-plane claim succeeds the request is granted —
regardless of the cursor-plane claims, which are only best-effort. -/
theorem lease_request_policy (b : LeaseBackend) (request : List Nat) :
    ((∃ c ∈ request, registered_non_desktop b c = false) →
      lease_request b request = Except.error ()) ∧
    ((∃ c ∈ request, conn_grantable b c = false) →
      lease_request b request = Except.error ()) ∧
    ((∀ c ∈ request, conn_grantable b c = true) →
      ∃ bld, lease_request b request = Except.ok bld) := by
  have herr : (∃ c ∈ request, conn_grantable b c = false) →
      lease_request b request = Except.error () := by
    rintro ⟨c, hc, hfail⟩
    cases hreq : lease_request b request with
    | error e => cases e; rfl
    | ok bld =>
      have := (lease_request_go_ok_iff b request ⟨[], [], []⟩).mp ⟨bld, hreq⟩ c hc
      rw [hfail] at this
      exact absurd this (by simp)
  refine ⟨?_, herr, fun hall => (lease_request_go_ok_iff b request ⟨[], [], []⟩).mpr hall⟩
  rintro ⟨c, hc, hunreg⟩
  exact herr ⟨c, hc, conn_grantable_of_unregistered b c hunreg⟩

/-- Closed witness for the C9 theorem: a request for an unregistered
connector is rejected; a request for a registered connector with a
claimable primary plane succeeds even though its cursor list is empty. -/
theorem lease_request_policy_witness :
    lease_request ⟨[(5, 1)], fun _ => some ⟨[7], []⟩, fun _ _ => true⟩ [3]
      = Except.error () ∧
    ∃ bld, lease_request ⟨[(5, 1)], fun _ => some ⟨[7], []⟩, fun _ _ => true⟩ [5]
      = Except.ok bld :=
  ⟨(lease_request_policy ⟨[(5, 1)], fun _ => some ⟨[7], []⟩, fun _ _ => true⟩ [3]).1
      ⟨3, by decide, by decide⟩,
    (lease_request_policy ⟨[(5, 1)], fun _ => some ⟨[7], []⟩, fun _ _ => true⟩ [5]).2.2
      (by decide)⟩

/-! ## C10: mode selection in connector_connected -/

/-- The first-position search returns `none` iff no element satisfies the
predicate. -/
theorem position_eq_none (p : ModeInfo → Bool) (l : List ModeInfo) :
    position p l = none ↔ ∀ m ∈ l, p m = false := by
  induction l with
  | nil => simp [position]
  | cons a l ih =>
    by_cases hpa : p a <;> simp [position, hpa, ih, Option.map_eq_none']

/-- The first-position search returns the index of the first satisfying
element. -/
theorem position_eq_some (p : ModeInfo → Bool) (l : List ModeInfo) :
    ∀ i, position p l = some i →
      i < l.length ∧ (∃ mi, l[i]? = some mi ∧ p mi = true) ∧
      ∀ j, j < i → ∀ mj, l[j]? = some mj → p mj = false := by
  induction l with
  | nil => intro i h; simp [position] at h
  | cons a l ih =>
    intro i h
    by_cases hpa : p a
    · have h0 : i = 0 := by simpa [position, hpa] using h.symm
      subst h0
      exact ⟨Nat.succ_pos _, ⟨a, by simp, hpa⟩,
        fun j hj => absurd hj (Nat.not_lt_zero j)⟩
    · rw [show position p (a :: l) = (position p l).map (· + 1) from by
        simp [position, hpa]] at h
      rw [Option.map_eq_some'] at h
      obtain ⟨i0, hi0, rfl⟩ := h
      obtain ⟨hlen, ⟨mi, hmi, hpmi⟩, hfirst⟩ := ih i0 hi0
      refine ⟨Nat.succ_lt_succ hlen, ⟨mi, by simpa using hmi, hpmi⟩, ?_⟩
      intro j hj mj hmj
      cases j with
      | zero =>
        simp only [List.getElem?_cons_zero, Option.some.injEq] at hmj
        subst hmj
        simpa using hpa
      | succ j0 =>
        exact hfirst j0 (Nat.lt_of_succ_lt_succ hj) mj (by simpa using hmj)

/-- C10: for a desktop connector, `connector_connected` indexes the
advertised mode list at the position of the first PREFERRED-flagged mode,
defaulting to index 0; with a nonempty mode list the indexing yields a
mode, and with an empty mode list the indexing is out of bounds — the Rust
`connector.modes()[mode_id]` panics there, modeled as `none` — so the
operation is total only when at least one mode is advertised. -/
theorem connector_connected_mode_selection (modes : List ModeInfo) :
    (modes = [] → connector_connected_mode modes = none) ∧
    (modes ≠ [] → ∃ m, connector_connected_mode modes = some m) ∧
    ((∀ m ∈ modes, m.preferred = false) → mode_id modes = 0) ∧
    (∀ i, position (fun mode => mode.preferred) modes = some i →
      mode_id modes = i ∧ (∃ mi, modes[i]? = some mi ∧ mi.preferred = true) ∧
      ∀ j, j < i → ∀ mj, modes[j]? = some mj → mj.preferred = false) := by
  refine ⟨?_, ?_, ?_, ?_⟩
  · rintro rfl; rfl
  · intro hne
    have hlt : mode_id modes < modes.length := by
      unfold mode_id
      cases hp : position (fun mode => mode.preferred) modes with
      | none =>
        simpa using List.length_pos.mpr hne
      | some i =>
        simpa using (position_eq_some _ modes i hp).1
    exact ⟨modes[mode_id modes], by
      unfold connector_connected_mode
      exact List.getElem?_eq_getElem hlt⟩
  · intro hall
    unfold mode_id
    rw [(position_eq_none _ modes).mpr hall]
    rfl
  · intro i hp
    refine ⟨by unfold mode_id; rw [hp]; rfl, (position_eq_some _ modes i hp).2.1,
      (position_eq_some _ modes i hp).2.2⟩

/-- Closed witness for the C10 theorem: the empty mode list gives `none`
(the panic case), and with a PREFERRED mode at index 1 the selection picks
index 1. -/
theorem connector_connected_mode_selection_witness :
    connector_connected_mode [] = none ∧
    (∃ m, connector_connected_mode [⟨0, false⟩, ⟨1, true⟩] = some m) ∧
    mode_id [⟨0, false⟩, ⟨1, true⟩] = 1 :=
  ⟨(connector_connected_mode_selection []).1 rfl,
    (connector_connected_mode_selection [⟨0, false⟩, ⟨1, true⟩]).2.1 (by decide),
    ((connector_connected_mode_selection [⟨0, false⟩, ⟨1, true⟩]).2.2.2 1
      (by decide)).1⟩

end Trayle
